import Mathlib

/-!
Verification of the static source-code analysis and dependency-mapping engine
of the coding_task_manager repository, against its natural-language
specification.  The subject code lives in
version_02_py_sophisticated/analyzers/{code_analyzer, dependency_mapper,
function_extractor}.py.  Each Python function relevant to the claims is
embedded shallowly below, keeping the source's names (prefixed with the class
it belongs to where needed to avoid collisions).

Modelling conventions:
 - The Python `ast` node universe is embedded as the inductive `Py`, covering
   every node kind the analyzed functions dispatch on.  Fields that none of
   the analyzed code reads (argument default values, argument type hints,
   per-expression line numbers, operator kinds) are omitted; statement nodes
   whose line numbers the extractors store (imports, function and class
   definitions) carry them.
 - `ast.walk` is breadth-first in CPython; it is embedded depth-first
   (`walk` below).  Every analyzed use of the walk either counts matching
   nodes, tests membership, or collects records whose claim-relevant content
   is order-insensitive, so the traversal order does not affect any claim.
 - Python code that raises is embedded in `Except PyErr`.  In particular
   `isinstance(child, ast.With, ast.AsyncWith)` in code_analyzer.py (lines
   424 and 516) calls `isinstance` with three arguments, which raises
   `TypeError` whenever that `elif` arm is evaluated; the embedding returns
   `.error .typeError` at exactly those evaluation points.
 - `list(set(xs))` (deduplication with unspecified order) is embedded as
   `List.dedup`, which keeps first occurrences; all claims about such lists
   are membership statements, insensitive to the order chosen.
-/

/-- `ast.alias` nodes appearing in import statements. -/
structure PyAlias where
  name : String
  asname : Option String
deriving DecidableEq

/-- The `ast.arguments` node of a function definition, reduced to the parts
the analyzers read: names of regular positional arguments, of the `*args`
argument and of the `**kwargs` argument.  (Keyword-only arguments, default
values and argument type hints are never read by the analyzed code paths.) -/
structure PyArgs where
  args : List String
  vararg : Option String := none
  kwarg : Option String := none
deriving DecidableEq

/-- Python AST nodes, covering every node kind the three analyzers dispatch
on via `isinstance`.  `lineno`/`endLineno` are carried only on the nodes
whose positions the extractors store. -/
inductive Py where
  | module (body : List Py)
  | functionDef (name : String) (args : PyArgs) (body : List Py)
      (decoratorList : List Py) (returns : Option Py)
      (lineno endLineno : Nat)
  | asyncFunctionDef (name : String) (args : PyArgs) (body : List Py)
      (decoratorList : List Py) (returns : Option Py)
      (lineno endLineno : Nat)
  | classDef (name : String) (bases : List Py) (body : List Py)
      (decoratorList : List Py) (lineno endLineno : Nat)
  | assign (targets : List Py) (value : Py) (lineno : Nat)
  | ret (value : Option Py)
  | exprStmt (value : Py)
  | passStmt
  | ifStmt (test : Py) (body orelse : List Py)
  | whileStmt (test : Py) (body orelse : List Py)
  | forStmt (target iter : Py) (body orelse : List Py)
  | asyncForStmt (target iter : Py) (body orelse : List Py)
  | withStmt (items : List Py) (body : List Py)
  | asyncWithStmt (items : List Py) (body : List Py)
  | tryStmt (body : List Py) (handlers : List Py) (orelse finalbody : List Py)
  | exceptHandler (type? : Option Py) (body : List Py)
  | importStmt (names : List PyAlias) (lineno : Nat)
  | importFrom (module : Option String) (names : List PyAlias) (lineno : Nat)
  | name (id : String)
  | attribute (value : Py) (attr : String)
  | call (func : Py) (args : List Py)
  | boolOp (values : List Py)
  | binOp (left right : Py)
  | compare (left : Py) (comparators : List Py)
  | strConst (s : String)
  | numConst (n : Int)
  | noneConst
  | listExpr (elts : List Py)
  | yieldExpr (value : Option Py)

namespace Py

-- Depth-first enumeration of a node and all of its descendants, embedding
-- `ast.walk` (CPython walks breadth-first; see the order note in the header).
mutual

def walk : Py → List Py
  | t@(.module body) => t :: walkList body
  | t@(.functionDef _ _ body decs r _ _) =>
      t :: (walkList body ++ walkList decs ++ walkOpt r)
  | t@(.asyncFunctionDef _ _ body decs r _ _) =>
      t :: (walkList body ++ walkList decs ++ walkOpt r)
  | t@(.classDef _ bases body decs _ _) =>
      t :: (walkList bases ++ walkList body ++ walkList decs)
  | t@(.assign targets value _) => t :: (walkList targets ++ walk value)
  | t@(.ret value) => t :: walkOpt value
  | t@(.exprStmt value) => t :: walk value
  | t@(.passStmt) => [t]
  | t@(.ifStmt test body orelse) => t :: (walk test ++ walkList body ++ walkList orelse)
  | t@(.whileStmt test body orelse) => t :: (walk test ++ walkList body ++ walkList orelse)
  | t@(.forStmt tgt iter body orelse) =>
      t :: (walk tgt ++ walk iter ++ walkList body ++ walkList orelse)
  | t@(.asyncForStmt tgt iter body orelse) =>
      t :: (walk tgt ++ walk iter ++ walkList body ++ walkList orelse)
  | t@(.withStmt items body) => t :: (walkList items ++ walkList body)
  | t@(.asyncWithStmt items body) => t :: (walkList items ++ walkList body)
  | t@(.tryStmt body handlers orelse finalbody) =>
      t :: (walkList body ++ walkList handlers ++ walkList orelse ++ walkList finalbody)
  | t@(.exceptHandler type? body) => t :: (walkOpt type? ++ walkList body)
  | t@(.importStmt _ _) => [t]
  | t@(.importFrom _ _ _) => [t]
  | t@(.name _) => [t]
  | t@(.attribute value _) => t :: walk value
  | t@(.call func args) => t :: (walk func ++ walkList args)
  | t@(.boolOp values) => t :: walkList values
  | t@(.binOp l r) => t :: (walk l ++ walk r)
  | t@(.compare l cs) => t :: (walk l ++ walkList cs)
  | t@(.strConst _) => [t]
  | t@(.numConst _) => [t]
  | t@(.noneConst) => [t]
  | t@(.listExpr elts) => t :: walkList elts
  | t@(.yieldExpr value) => t :: walkOpt value

def walkList : List Py → List Py
  | [] => []
  | s :: ss => walk s ++ walkList ss

def walkOpt : Option Py → List Py
  | none => []
  | some e => walk e

end

/-- `ast.get_docstring`: the first statement of a body, when it is a bare
string-literal expression. -/
def getDocstring : List Py → Option String
  | .exprStmt (.strConst s) :: _ => some s
  | _ => none

-- Structural equality on nodes (Python's `node in list` membership test uses
-- object identity on AST nodes; structural equality coincides with it on all
-- inputs without duplicated structurally-equal subtrees,
-- and no claim depends on the difference).
mutual

def beq : Py → Py → Bool
  | .module b, .module b' => beqList b b'
  | .functionDef n a b d r l e, .functionDef n' a' b' d' r' l' e' =>
      n == n' && a == a' && beqList b b' && beqList d d' && beqOpt r r'
        && l == l' && e == e'
  | .asyncFunctionDef n a b d r l e, .asyncFunctionDef n' a' b' d' r' l' e' =>
      n == n' && a == a' && beqList b b' && beqList d d' && beqOpt r r'
        && l == l' && e == e'
  | .classDef n bs b d l e, .classDef n' bs' b' d' l' e' =>
      n == n' && beqList bs bs' && beqList b b' && beqList d d' && l == l' && e == e'
  | .assign t v l, .assign t' v' l' => beqList t t' && beq v v' && l == l'
  | .ret v, .ret v' => beqOpt v v'
  | .exprStmt v, .exprStmt v' => beq v v'
  | .passStmt, .passStmt => true
  | .ifStmt t b o, .ifStmt t' b' o' => beq t t' && beqList b b' && beqList o o'
  | .whileStmt t b o, .whileStmt t' b' o' => beq t t' && beqList b b' && beqList o o'
  | .forStmt t i b o, .forStmt t' i' b' o' =>
      beq t t' && beq i i' && beqList b b' && beqList o o'
  | .asyncForStmt t i b o, .asyncForStmt t' i' b' o' =>
      beq t t' && beq i i' && beqList b b' && beqList o o'
  | .withStmt i b, .withStmt i' b' => beqList i i' && beqList b b'
  | .asyncWithStmt i b, .asyncWithStmt i' b' => beqList i i' && beqList b b'
  | .tryStmt b h o f, .tryStmt b' h' o' f' =>
      beqList b b' && beqList h h' && beqList o o' && beqList f f'
  | .exceptHandler t b, .exceptHandler t' b' => beqOpt t t' && beqList b b'
  | .importStmt n l, .importStmt n' l' => n == n' && l == l'
  | .importFrom m n l, .importFrom m' n' l' => m == m' && n == n' && l == l'
  | .name i, .name i' => i == i'
  | .attribute v a, .attribute v' a' => beq v v' && a == a'
  | .call f a, .call f' a' => beq f f' && beqList a a'
  | .boolOp v, .boolOp v' => beqList v v'
  | .binOp l r, .binOp l' r' => beq l l' && beq r r'
  | .compare l c, .compare l' c' => beq l l' && beqList c c'
  | .strConst s, .strConst s' => s == s'
  | .numConst n, .numConst n' => n == n'
  | .noneConst, .noneConst => true
  | .listExpr e, .listExpr e' => beqList e e'
  | .yieldExpr v, .yieldExpr v' => beqOpt v v'
  | _, _ => false

def beqList : List Py → List Py → Bool
  | [], [] => true
  | x :: xs, y :: ys => beq x y && beqList xs ys
  | _, _ => false

def beqOpt : Option Py → Option Py → Bool
  | none, none => true
  | some x, some y => beq x y
  | _, _ => false

end

instance : BEq Py := ⟨Py.beq⟩

end Py

/-- Python exceptions raised by the analyzed code paths. -/
inductive PyErr where
  | typeError
  | attributeError
deriving DecidableEq

/-- A minimal rendering of expression source text, standing in for
`ast.unparse`.  The analyzers store its output (return-annotation text) but no
claim inspects these strings, so only the simple shapes are rendered. -/
def unparse : Py → String
  | .name i => i
  | .attribute v a => unparse v ++ "." ++ a
  | .strConst s => "'" ++ s ++ "'"
  | .numConst n => toString n
  | .noneConst => "None"
  | _ => "<expr>"

/-- Python `str.isupper()` restricted to ASCII: at least one cased character,
and every cased character is upper case. -/
def pythonIsUpper (s : String) : Bool :=
  let cased := s.toList.filter Char.isAlpha
  !cased.isEmpty && cased.all Char.isUpper

/-- Python `sub in s` substring test (nonempty `sub`). -/
def strContains (s sub : String) : Bool :=
  (s.splitOn sub).length > 1

/-- Python `s.startswith(p)`, written on the character lists so that concrete
instances reduce inside the kernel (extensionally the same test as
`String.startsWith`). -/
def pyStartsWith (s p : String) : Bool := p.data.isPrefixOf s.data

/-- Python `s.split('.')[0]`: the characters before the first dot (the whole
string when there is none). -/
def pyRoot (s : String) : String := ⟨s.data.takeWhile (· ≠ '.')⟩

/-! ## code_analyzer.py (class CodeAnalyzer)

Leading underscores of the Python method names are dropped. -/

namespace CodeAnalyzer

/-- Dataclass `ImportInfo` of code_analyzer.py. -/
structure ImportInfo where
  module : String
  names : List String
  aliasName : Option String  -- the dataclass field is named alias, a reserved word here
  lineNumber : Nat
  isFromImport : Bool
deriving DecidableEq

/-- Dataclass `FunctionInfo` of code_analyzer.py. -/
structure FunctionInfo where
  name : String
  lineStart : Nat
  lineEnd : Nat
  args : List String
  returns : Option String
  docstring : Option String
  complexity : Nat
  calls : List String
  decorators : List String
  isAsync : Bool
  isMethod : Bool
  isStatic : Bool
  isClassMethod : Bool
deriving DecidableEq

/-- Dataclass `ClassInfo` of code_analyzer.py. -/
structure ClassInfo where
  name : String
  lineStart : Nat
  lineEnd : Nat
  bases : List String
  methods : List FunctionInfo
  attributes : List String
  docstring : Option String
  decorators : List String
  isAbstract : Bool
deriving DecidableEq

/-- `CodeAnalyzer._extract_imports`: one record per alias of a bare `import`
(with `names = [alias.name]`), one record per `from` statement carrying all
its imported names. -/
def extract_imports (tree : Py) : List ImportInfo :=
  (Py.walk tree).foldl (fun imports node =>
    match node with
    | .importStmt aliases l =>
        imports ++ aliases.map (fun a =>
          { module := a.name, names := [a.name], aliasName := a.asname,
            lineNumber := l, isFromImport := false })
    | .importFrom m names l =>
        imports ++ [{ module := m.getD "", names := names.map (·.name),
                      aliasName := none, lineNumber := l, isFromImport := true }]
    | _ => imports) []

/-- `CodeAnalyzer._calculate_function_complexity` (code_analyzer.py:415-429).
The third arm of the Python `elif` chain is
`isinstance(child, ast.With, ast.AsyncWith)`, a three-argument `isinstance`
call that raises `TypeError` whenever evaluated — i.e. on every walked child
that is not an if/while/for/async-for or an except handler (the later
`ast.BoolOp` arm is unreachable). -/
def calculate_function_complexity (node : Py) : Except PyErr Nat :=
  (Py.walk node).foldlM (fun complexity child =>
    match child with
    | .ifStmt .. | .whileStmt .. | .forStmt .. | .asyncForStmt .. =>
        pure (complexity + 1)
    | .exceptHandler .. => pure (complexity + 1)
    | _ => throw .typeError) 1

/-- `CodeAnalyzer._calculate_cyclomatic_complexity` (code_analyzer.py:507-521):
same broken `elif` chain as `calculate_function_complexity`, applied to the
whole tree. -/
def calculate_cyclomatic_complexity (tree : Py) : Except PyErr Nat :=
  (Py.walk tree).foldlM (fun complexity node =>
    match node with
    | .ifStmt .. | .whileStmt .. | .forStmt .. | .asyncForStmt .. =>
        pure (complexity + 1)
    | .exceptHandler .. => pure (complexity + 1)
    | _ => throw .typeError) 1

/-- `CodeAnalyzer._extract_function_calls`: call-target names (bare identifier
or rightmost attribute), deduplicated via `list(set(...))`. -/
def extract_function_calls (node : Py) : List String :=
  ((Py.walk node).foldl (fun calls child =>
    match child with
    | .call (.name i) _ => calls ++ [i]
    | .call (.attribute _ a) _ => calls ++ [a]
    | .call _ _ => calls
    | _ => calls) []).dedup

/-- `CodeAnalyzer._is_method`: the function node is a direct member of some
class body in the tree. -/
def is_method (node tree : Py) : Bool :=
  (Py.walk tree).any (fun parent =>
    match parent with
    | .classDef _ _ body _ _ _ => body.any (fun s => s == node)
    | _ => false)

/-- Decorator rendering of `CodeAnalyzer._extract_functions` (lines 170-175):
`ast.Name` decorators contribute their id, `ast.Attribute` decorators read
`decorator.value.id` — an `AttributeError` unless the value is an `ast.Name` —
and any other decorator shape is silently skipped. -/
def function_decorators (decs : List Py) : Except PyErr (List String) :=
  decs.foldlM (fun acc d =>
    match d with
    | .name i => pure (acc ++ [i])
    | .attribute (.name vi) a => pure (acc ++ [vi ++ "." ++ a])
    | .attribute _ _ => throw .attributeError
    | _ => pure acc) []

/-- `CodeAnalyzer._extract_functions`: one `FunctionInfo` per function node in
the walk.  Sub-steps are sequenced in source order, so the first raising step
(always the complexity calculation) determines the error. -/
def extract_functions (tree : Py) : Except PyErr (List FunctionInfo) :=
  (Py.walk tree).foldlM (fun functions node =>
    match node with
    | .functionDef nm args body decs r lineno endLineno => do
        let argList := args.args
          ++ (args.vararg.map (fun v => "*" ++ v)).toList
          ++ (args.kwarg.map (fun k => "**" ++ k)).toList
        let complexity ← calculate_function_complexity node
        let decorators ← function_decorators decs
        pure (functions ++ [{
          name := nm, lineStart := lineno, lineEnd := endLineno,
          args := argList, returns := r.map unparse,
          docstring := Py.getDocstring body, complexity := complexity,
          calls := extract_function_calls node, decorators := decorators,
          isAsync := false, isMethod := is_method node tree,
          isStatic := decorators.contains "staticmethod",
          isClassMethod := decorators.contains "classmethod" }])
    | .asyncFunctionDef nm args body decs r lineno endLineno => do
        let argList := args.args
          ++ (args.vararg.map (fun v => "*" ++ v)).toList
          ++ (args.kwarg.map (fun k => "**" ++ k)).toList
        let complexity ← calculate_function_complexity node
        let decorators ← function_decorators decs
        pure (functions ++ [{
          name := nm, lineStart := lineno, lineEnd := endLineno,
          args := argList, returns := r.map unparse,
          docstring := Py.getDocstring body, complexity := complexity,
          calls := extract_function_calls node, decorators := decorators,
          isAsync := true, isMethod := is_method node tree,
          isStatic := decorators.contains "staticmethod",
          isClassMethod := decorators.contains "classmethod" }])
    | _ => pure functions) []

/-- `CodeAnalyzer._extract_method_info`: like function extraction but reading
only the regular positional arguments, and rendering non-`Name` decorators
with `str(...)` instead of raising. -/
def extract_method_info (node : Py) : Except PyErr FunctionInfo :=
  match node with
  | .functionDef nm args body decs r lineno endLineno => do
      let complexity ← calculate_function_complexity node
      let decorators := decs.map (fun d =>
        match d with | .name i => i | _ => "<ast-object>")
      pure { name := nm, lineStart := lineno, lineEnd := endLineno,
             args := args.args, returns := r.map unparse,
             docstring := Py.getDocstring body, complexity := complexity,
             calls := extract_function_calls node, decorators := decorators,
             isAsync := false, isMethod := true,
             isStatic := decorators.contains "staticmethod",
             isClassMethod := decorators.contains "classmethod" }
  | .asyncFunctionDef nm args body decs r lineno endLineno => do
      let complexity ← calculate_function_complexity node
      let decorators := decs.map (fun d =>
        match d with | .name i => i | _ => "<ast-object>")
      pure { name := nm, lineStart := lineno, lineEnd := endLineno,
             args := args.args, returns := r.map unparse,
             docstring := Py.getDocstring body, complexity := complexity,
             calls := extract_function_calls node, decorators := decorators,
             isAsync := true, isMethod := true,
             isStatic := decorators.contains "staticmethod",
             isClassMethod := decorators.contains "classmethod" }
  | _ => throw .typeError

/-- `CodeAnalyzer._extract_class_attributes`: left-hand-side names of direct
assignments in a class body. -/
def extract_class_attributes (body : List Py) : List String :=
  body.foldl (fun attrs item =>
    match item with
    | .assign targets _ _ =>
        attrs ++ targets.foldl (fun a t =>
          match t with | .name i => a ++ [i] | _ => a) []
    | _ => attrs) []

/-- Base-class rendering of `CodeAnalyzer._extract_classes` (lines 208-213):
like decorators, `ast.Attribute` bases read `base.value.id`. -/
def class_bases (bases : List Py) : Except PyErr (List String) :=
  bases.foldlM (fun acc b =>
    match b with
    | .name i => pure (acc ++ [i])
    | .attribute (.name vi) a => pure (acc ++ [vi ++ "." ++ a])
    | .attribute _ _ => throw .attributeError
    | _ => pure acc) []

/-- `CodeAnalyzer._extract_classes`. -/
def extract_classes (tree : Py) : Except PyErr (List ClassInfo) :=
  (Py.walk tree).foldlM (fun classes node =>
    match node with
    | .classDef nm bases body decs lineno endLineno => do
        let baseNames ← class_bases bases
        let methods ← body.foldlM (fun ms item =>
          match item with
          | .functionDef .. | .asyncFunctionDef .. => do
              let mi ← extract_method_info item
              pure (ms ++ [mi])
          | _ => pure ms) ([] : List FunctionInfo)
        let decorators := decs.foldl (fun acc d =>
          match d with | .name i => acc ++ [i] | _ => acc) []
        pure (classes ++ [{
          name := nm, lineStart := lineno, lineEnd := endLineno,
          bases := baseNames, methods := methods,
          attributes := extract_class_attributes body,
          docstring := Py.getDocstring body, decorators := decorators,
          isAbstract := baseNames.any (fun b =>
            strContains b.toLower "abc" || strContains b.toLower "abstract") }])
    | _ => pure classes) []

/-- `CodeAnalyzer._infer_type` (dict/set/tuple literals are not in the
embedded node universe; they would map to their literal kind the same way the
list case does). -/
def infer_type : Py → String
  | .numConst _ => "int"
  | .strConst _ => "str"
  | .noneConst => "NoneType"
  | .listExpr _ => "list"
  | .call (.name f) _ => f
  | _ => "unknown"

/-- Entries of `_extract_global_variables` / `_extract_constants`. -/
structure VarInfo where
  name : String
  type : String
  lineNumber : Nat
  isConstant : Bool
deriving DecidableEq

/-- `CodeAnalyzer._extract_global_variables`: assignments whose first target
is a bare name (despite the name, the walk visits nested scopes too). -/
def extract_global_variables (tree : Py) : List VarInfo :=
  (Py.walk tree).foldl (fun vars node =>
    match node with
    | .assign (.name i :: _) value l =>
        vars ++ [{ name := i, type := infer_type value, lineNumber := l,
                   isConstant := pythonIsUpper i }]
    | _ => vars) []

/-- `CodeAnalyzer._extract_constants`: the upper-case subset of the above. -/
def extract_constants (tree : Py) : List VarInfo :=
  (Py.walk tree).foldl (fun consts node =>
    match node with
    | .assign (.name i :: _) value l =>
        if pythonIsUpper i then
          consts ++ [{ name := i, type := infer_type value, lineNumber := l,
                       isConstant := true }]
        else consts
    | _ => consts) []

end CodeAnalyzer

namespace Py

-- The recursive visitors `_calculate_cognitive_complexity` and
-- `_calculate_max_nesting_depth` visit every node together with a nesting
-- level that grows by one under the constructs selected by a predicate `f`.
-- `walkLevels f t lvl` enumerates exactly the `(node, level)` pairs those
-- visitors see: the node itself at the incoming level, then all descendants
-- at the level incremented iff `f` holds of the node.
mutual

def walkLevels (f : Py → Bool) : Py → Nat → List (Py × Nat)
  | t@(.module body), lvl =>
      (t, lvl) :: walkLevelsList f body (if f t then lvl + 1 else lvl)
  | t@(.functionDef _ _ body decs r _ _), lvl =>
      (t, lvl) :: (walkLevelsList f body (if f t then lvl + 1 else lvl)
        ++ walkLevelsList f decs (if f t then lvl + 1 else lvl)
        ++ walkLevelsOpt f r (if f t then lvl + 1 else lvl))
  | t@(.asyncFunctionDef _ _ body decs r _ _), lvl =>
      (t, lvl) :: (walkLevelsList f body (if f t then lvl + 1 else lvl)
        ++ walkLevelsList f decs (if f t then lvl + 1 else lvl)
        ++ walkLevelsOpt f r (if f t then lvl + 1 else lvl))
  | t@(.classDef _ bases body decs _ _), lvl =>
      (t, lvl) :: (walkLevelsList f bases (if f t then lvl + 1 else lvl)
        ++ walkLevelsList f body (if f t then lvl + 1 else lvl)
        ++ walkLevelsList f decs (if f t then lvl + 1 else lvl))
  | t@(.assign targets value _), lvl =>
      (t, lvl) :: (walkLevelsList f targets (if f t then lvl + 1 else lvl)
        ++ walkLevels f value (if f t then lvl + 1 else lvl))
  | t@(.ret value), lvl =>
      (t, lvl) :: walkLevelsOpt f value (if f t then lvl + 1 else lvl)
  | t@(.exprStmt value), lvl =>
      (t, lvl) :: walkLevels f value (if f t then lvl + 1 else lvl)
  | t@(.passStmt), lvl => [(t, lvl)]
  | t@(.ifStmt test body orelse), lvl =>
      (t, lvl) :: (walkLevels f test (if f t then lvl + 1 else lvl)
        ++ walkLevelsList f body (if f t then lvl + 1 else lvl)
        ++ walkLevelsList f orelse (if f t then lvl + 1 else lvl))
  | t@(.whileStmt test body orelse), lvl =>
      (t, lvl) :: (walkLevels f test (if f t then lvl + 1 else lvl)
        ++ walkLevelsList f body (if f t then lvl + 1 else lvl)
        ++ walkLevelsList f orelse (if f t then lvl + 1 else lvl))
  | t@(.forStmt tgt iter body orelse), lvl =>
      (t, lvl) :: (walkLevels f tgt (if f t then lvl + 1 else lvl)
        ++ walkLevels f iter (if f t then lvl + 1 else lvl)
        ++ walkLevelsList f body (if f t then lvl + 1 else lvl)
        ++ walkLevelsList f orelse (if f t then lvl + 1 else lvl))
  | t@(.asyncForStmt tgt iter body orelse), lvl =>
      (t, lvl) :: (walkLevels f tgt (if f t then lvl + 1 else lvl)
        ++ walkLevels f iter (if f t then lvl + 1 else lvl)
        ++ walkLevelsList f body (if f t then lvl + 1 else lvl)
        ++ walkLevelsList f orelse (if f t then lvl + 1 else lvl))
  | t@(.withStmt items body), lvl =>
      (t, lvl) :: (walkLevelsList f items (if f t then lvl + 1 else lvl)
        ++ walkLevelsList f body (if f t then lvl + 1 else lvl))
  | t@(.asyncWithStmt items body), lvl =>
      (t, lvl) :: (walkLevelsList f items (if f t then lvl + 1 else lvl)
        ++ walkLevelsList f body (if f t then lvl + 1 else lvl))
  | t@(.tryStmt body handlers orelse finalbody), lvl =>
      (t, lvl) :: (walkLevelsList f body (if f t then lvl + 1 else lvl)
        ++ walkLevelsList f handlers (if f t then lvl + 1 else lvl)
        ++ walkLevelsList f orelse (if f t then lvl + 1 else lvl)
        ++ walkLevelsList f finalbody (if f t then lvl + 1 else lvl))
  | t@(.exceptHandler type? body), lvl =>
      (t, lvl) :: (walkLevelsOpt f type? (if f t then lvl + 1 else lvl)
        ++ walkLevelsList f body (if f t then lvl + 1 else lvl))
  | t@(.importStmt _ _), lvl => [(t, lvl)]
  | t@(.importFrom _ _ _), lvl => [(t, lvl)]
  | t@(.name _), lvl => [(t, lvl)]
  | t@(.attribute value _), lvl =>
      (t, lvl) :: walkLevels f value (if f t then lvl + 1 else lvl)
  | t@(.call func args), lvl =>
      (t, lvl) :: (walkLevels f func (if f t then lvl + 1 else lvl)
        ++ walkLevelsList f args (if f t then lvl + 1 else lvl))
  | t@(.boolOp values), lvl =>
      (t, lvl) :: walkLevelsList f values (if f t then lvl + 1 else lvl)
  | t@(.binOp l r), lvl =>
      (t, lvl) :: (walkLevels f l (if f t then lvl + 1 else lvl)
        ++ walkLevels f r (if f t then lvl + 1 else lvl))
  | t@(.compare l cs), lvl =>
      (t, lvl) :: (walkLevels f l (if f t then lvl + 1 else lvl)
        ++ walkLevelsList f cs (if f t then lvl + 1 else lvl))
  | t@(.strConst _), lvl => [(t, lvl)]
  | t@(.numConst _), lvl => [(t, lvl)]
  | t@(.noneConst), lvl => [(t, lvl)]
  | t@(.listExpr elts), lvl =>
      (t, lvl) :: walkLevelsList f elts (if f t then lvl + 1 else lvl)
  | t@(.yieldExpr value), lvl =>
      (t, lvl) :: walkLevelsOpt f value (if f t then lvl + 1 else lvl)

def walkLevelsList (f : Py → Bool) : List Py → Nat → List (Py × Nat)
  | [], _ => []
  | s :: ss, lvl => walkLevels f s lvl ++ walkLevelsList f ss lvl

def walkLevelsOpt (f : Py → Bool) : Option Py → Nat → List (Py × Nat)
  | none, _ => []
  | some e, lvl => walkLevels f e lvl

end

end Py

namespace CodeAnalyzer

/-- The constructs under which `_calculate_cognitive_complexity` increases
the nesting level: `ast.If`, `ast.While`, `ast.For`, `ast.With`,
`ast.ExceptHandler` (their async forms are not in the tuple). -/
def cognitiveNest : Py → Bool
  | .ifStmt .. | .whileStmt .. | .forStmt .. | .withStmt ..
  | .exceptHandler .. => true
  | _ => false

/-- The per-node score of `_calculate_cognitive_complexity`:
`1 + current nesting level` for `ast.If`/`ast.While`/`ast.For` and for
`ast.ExceptHandler`, `0` otherwise. -/
def cognitiveScore : Py → Nat → Nat
  | .ifStmt .., lvl => 1 + lvl
  | .whileStmt .., lvl => 1 + lvl
  | .forStmt .., lvl => 1 + lvl
  | .exceptHandler .., lvl => 1 + lvl
  | _, _ => 0

/-- `CodeAnalyzer._calculate_cognitive_complexity`: the recursive visitor
accumulates `cognitiveScore` over every node at its nesting level, starting
from the tree root at level 0. -/
def calculate_cognitive_complexity (tree : Py) : Nat :=
  ((Py.walkLevels cognitiveNest tree 0).map fun p => cognitiveScore p.1 p.2).sum

/-- Constructs under which `_calculate_max_nesting_depth` increases depth. -/
def nestingNest : Py → Bool
  | .ifStmt .. | .whileStmt .. | .forStmt .. | .withStmt ..
  | .functionDef .. | .classDef .. => true
  | _ => false

/-- `CodeAnalyzer._calculate_max_nesting_depth`: maximum depth reached over
all visited nodes. -/
def calculate_max_nesting_depth (tree : Py) : Nat :=
  ((Py.walkLevels nestingNest tree 0).map Prod.snd).foldl max 0

/-- Result record of `_calculate_complexity_metrics`. -/
structure ComplexityMetrics where
  cyclomaticComplexity : Nat
  cognitiveComplexity : Nat
  nestingDepth : Nat
  functionCount : Nat
  classCount : Nat
  complexityLevel : String
deriving DecidableEq

/-- `CodeAnalyzer._calculate_complexity_metrics`: the dict literal evaluates
the (always-raising) file-level cyclomatic complexity first. -/
def calculate_complexity_metrics (tree : Py) : Except PyErr ComplexityMetrics := do
  let cc ← calculate_cyclomatic_complexity tree
  pure {
    cyclomaticComplexity := cc,
    cognitiveComplexity := calculate_cognitive_complexity tree,
    nestingDepth := calculate_max_nesting_depth tree,
    functionCount := ((Py.walk tree).filter fun n =>
      match n with | .functionDef .. => true | _ => false).length,
    classCount := ((Py.walk tree).filter fun n =>
      match n with | .classDef .. => true | _ => false).length,
    complexityLevel :=
      if cc ≤ 10 then "low" else if cc ≤ 20 then "medium"
      else if cc ≤ 50 then "high" else "very_high" }

/-- Code-smell entries of `_detect_code_smells`. -/
inductive Smell where
  | longParameterList (function : String) (parameterCount : Nat)
      (lineNumber : Nat)
  | largeClass (className : String) (methodCount : Nat) (lineNumber : Nat)
deriving DecidableEq

/-- `CodeAnalyzer._detect_code_smells`: a synchronous function definition
with more than 5 regular positional arguments (`len(node.args.args)`) is a
long parameter list; a class with more than 20 direct synchronous method
children is a large class.  Async definitions fail both `isinstance(...,
ast.FunctionDef)` tests. -/
def detect_code_smells (tree : Py) : List Smell :=
  (Py.walk tree).foldl (fun smells node =>
    match node with
    | .functionDef nm args _ _ _ l _ =>
        if args.args.length > 5 then
          smells ++ [.longParameterList nm args.args.length l]
        else smells
    | .classDef nm _ body _ l _ =>
        let methodCount := (body.filter fun item =>
          match item with | .functionDef .. => true | _ => false).length
        if methodCount > 20 then
          smells ++ [.largeClass nm methodCount l]
        else smells
    | _ => smells) []

/-- `CodeAnalyzer._count_code_lines`. -/
def count_code_lines (content : String) : Nat :=
  ((content.splitOn "\n").filter fun line =>
    !line.trim.isEmpty && !line.trim.startsWith "#").length

/-- `CodeAnalyzer._count_comment_lines`. -/
def count_comment_lines (content : String) : Nat :=
  ((content.splitOn "\n").filter fun line => line.trim.startsWith "#").length

/-- `CodeAnalyzer._count_blank_lines`. -/
def count_blank_lines (content : String) : Nat :=
  ((content.splitOn "\n").filter fun line => line.trim.isEmpty).length

/-- `CodeAnalyzer._calculate_maintainability_index`, over exact rationals
(CPython computes in binary floating point and rounds the result to two
decimals; no claim reads this value, which is unreachable anyway because the
cyclomatic computation it starts with always raises). -/
def calculate_maintainability_index (tree : Py) (content : String) :
    Except PyErr ℚ := do
  let loc : ℚ := count_code_lines content
  let cc ← calculate_cyclomatic_complexity tree
  if loc = 0 then pure 100
  else pure (max 0 ((171 - (26 / 5) * ((cc : ℚ) / loc) * 100
    - (23 / 100) * (cc : ℚ) - (81 / 5) * (loc / 1000)) * 100 / 171))

/-- The regex `^[a-z_][a-z0-9_]*$` used for function names. -/
def snakeCase (s : String) : Bool :=
  match s.toList with
  | [] => false
  | c :: cs =>
      (c.isLower || c = '_')
        && cs.all fun d => d.isLower || d.isDigit || d = '_'

/-- The regex `^[A-Z][a-zA-Z0-9]*$` used for class names. -/
def pascalCase (s : String) : Bool :=
  match s.toList with
  | [] => false
  | c :: cs => c.isUpper && cs.all fun d => d.isAlpha || d.isDigit

/-- Result record of `_follows_naming_conventions` (the constant/variable
flags are initialized `True` and never updated by the source). -/
structure NamingConventions where
  functionsSnakeCase : Bool
  classesPascalCase : Bool
  constantsUpperCase : Bool
  variablesSnakeCase : Bool
deriving DecidableEq

/-- `CodeAnalyzer._follows_naming_conventions`. -/
def follows_naming_conventions (tree : Py) : NamingConventions :=
  { functionsSnakeCase := (Py.walk tree).all fun n =>
      match n with | .functionDef nm .. => snakeCase nm | _ => true,
    classesPascalCase := (Py.walk tree).all fun n =>
      match n with | .classDef nm .. => pascalCase nm | _ => true,
    constantsUpperCase := true,
    variablesSnakeCase := true }

/-- Result record of `_has_type_hints`.  The source also counts a function as
typed when any regular argument has a type hint; argument hints are outside
the embedded node universe (see the header), so only the return hint is
counted.  No claim reads this record and `analyze_file` raises before
computing it. -/
structure TypeHints where
  hasTypeHints : Bool
  typedFunctions : Nat
  totalFunctions : Nat
deriving DecidableEq

/-- `CodeAnalyzer._has_type_hints` (synchronous defs only). -/
def has_type_hints (tree : Py) : TypeHints :=
  let funcs := (Py.walk tree).filterMap fun n =>
    match n with
    | .functionDef _ _ _ _ r _ _ => some r.isSome
    | _ => none
  { hasTypeHints := (funcs.filter id).length > 0,
    typedFunctions := (funcs.filter id).length,
    totalFunctions := funcs.length }

/-- An entry of `_check_line_lengths`. -/
structure LineIssue where
  lineNumber : Nat
  length : Nat
  content : String
deriving DecidableEq

/-- `CodeAnalyzer._check_line_lengths`: 1-based lines longer than 100
characters, with the content truncated to 50 characters plus an ellipsis. -/
def check_line_lengths (content : String) : List LineIssue :=
  ((content.splitOn "\n").enumFrom 1).foldl (fun issues p =>
    if p.2.length > 100 then
      issues ++ [{ lineNumber := p.1,
                   length := p.2.length,
                   content := (if p.2.length > 50 then p.2.take 50 ++ "..."
                               else p.2) }]
    else issues) []

/-- An entry of `_detect_duplicate_code`. -/
structure DuplicateEntry where
  content : String
  occurrences : List Nat
  count : Nat
deriving DecidableEq

/-- `CodeAnalyzer._detect_duplicate_code`: stripped, non-comment lines longer
than 10 characters occurring more than once, keyed in first-occurrence order
with all their 1-based line numbers. -/
def detect_duplicate_code (content : String) : List DuplicateEntry :=
  let keyed := ((content.splitOn "\n").enumFrom 1).filterMap fun p =>
    let stripped := p.2.trim
    if !stripped.isEmpty && !stripped.startsWith "#" && stripped.length > 10
    then some (stripped, p.1) else none
  (keyed.map Prod.fst).dedup.foldl (fun dups line =>
    let occ := (keyed.filter fun q => q.1 = line).map Prod.snd
    if occ.length > 1 then
      dups ++ [{ content := (if line.length > 50 then line.take 50 ++ "..."
                             else line),
                 occurrences := occ,
                 count := occ.length }]
    else dups) []

/-- `CodeAnalyzer._has_docstrings`: the module itself has a docstring. -/
def has_docstrings (tree : Py) : Bool :=
  match tree with
  | .module body => (Py.getDocstring body).isSome
  | _ => false

/-- Result record of `_assess_code_quality`. -/
structure CodeQuality where
  hasDocstrings : Bool
  followsNamingConventions : NamingConventions
  hasTypeHints : TypeHints
  lineLengthIssues : List LineIssue
  duplicateCode : List DuplicateEntry
  codeSmells : List Smell
  maintainabilityIndex : ℚ
deriving DecidableEq

/-- `CodeAnalyzer._assess_code_quality`: the maintainability index is the
last dict value evaluated, and the only raising one. -/
def assess_code_quality (tree : Py) (content : String) :
    Except PyErr CodeQuality := do
  let mi ← calculate_maintainability_index tree content
  pure { hasDocstrings := has_docstrings tree,
         followsNamingConventions := follows_naming_conventions tree,
         hasTypeHints := has_type_hints tree,
         lineLengthIssues := check_line_lengths content,
         duplicateCode := detect_duplicate_code content,
         codeSmells := detect_code_smells tree,
         maintainabilityIndex := mi }

/-- The `builtin_functions` set of `CodeAnalyzer.__init__`. -/
def builtin_functions : List String :=
  ["print", "len", "range", "str", "int", "float", "bool", "list", "dict",
   "set", "tuple", "type", "isinstance", "hasattr", "getattr", "setattr",
   "open", "input", "sum", "max", "min", "abs", "round", "sorted",
   "reversed", "enumerate", "zip", "map", "filter", "any", "all"]

/-- Result record of `_extract_dependencies`. -/
structure CaDependencies where
  internalCalls : List String
  externalCalls : List String
  importedModules : List String
deriving DecidableEq

/-- `CodeAnalyzer._extract_dependencies`. -/
def extract_dependencies (tree : Py) : CaDependencies :=
  let importedModules := (Py.walk tree).foldl (fun acc n =>
    match n with
    | .importStmt aliases _ => acc ++ aliases.map (·.name)
    | .importFrom (some m) _ _ => acc ++ [m]
    | _ => acc) []
  let calls := (Py.walk tree).foldl (fun acc n =>
    match n with
    | .call (.name f) _ =>
        if f ∈ builtin_functions then (acc.1, acc.2 ++ [f])
        else (acc.1 ++ [f], acc.2)
    | .call (.attribute _ a) _ => (acc.1, acc.2 ++ [a])
    | _ => acc) (([], []) : List String × List String)
  { internalCalls := calls.1, externalCalls := calls.2,
    importedModules := importedModules }

/-- Result record of `_calculate_docstring_coverage` (percentages kept as
exact rationals; the source rounds them to two decimals). -/
structure DocstringCoverage where
  functionCoverage : ℚ
  classCoverage : ℚ
  overallCoverage : ℚ
  documentedFunctions : Nat
  totalFunctions : Nat
  documentedClasses : Nat
  totalClasses : Nat
deriving DecidableEq

/-- `CodeAnalyzer._calculate_docstring_coverage` (synchronous defs only). -/
def calculate_docstring_coverage (tree : Py) : DocstringCoverage :=
  let fs := (Py.walk tree).filterMap fun n =>
    match n with
    | .functionDef _ _ body _ _ _ _ => some (Py.getDocstring body).isSome
    | _ => none
  let cs := (Py.walk tree).filterMap fun n =>
    match n with
    | .classDef _ _ body _ _ _ => some (Py.getDocstring body).isSome
    | _ => none
  let fCov : ℚ :=
    if fs.length > 0 then (fs.filter id).length / (fs.length : ℚ) * 100
    else 100
  let cCov : ℚ :=
    if cs.length > 0 then (cs.filter id).length / (cs.length : ℚ) * 100
    else 100
  { functionCoverage := fCov, classCoverage := cCov,
    overallCoverage := (fCov + cCov) / 2,
    documentedFunctions := (fs.filter id).length, totalFunctions := fs.length,
    documentedClasses := (cs.filter id).length, totalClasses := cs.length }

/-- The full per-file analysis record of `CodeAnalyzer.analyze_file` (the
`file_path` echo field is omitted; `valid` is expressed by the
`CaResult` constructor). -/
structure CaAnalysis where
  imports : List ImportInfo
  functions : List FunctionInfo
  classes : List ClassInfo
  globalVariables : List VarInfo
  constants : List VarInfo
  complexityMetrics : ComplexityMetrics
  codeQuality : CodeQuality
  dependencies : CaDependencies
  docstringCoverage : DocstringCoverage
  lineCount : Nat
  codeLines : Nat
  commentLines : Nat
  blankLines : Nat
deriving DecidableEq

/-- `analyze_file` returns either an `{'error': ..., 'valid': False}` dict or
a full analysis dict with `valid = True`. -/
inductive CaResult where
  | invalid (error : String)
  | analysis (a : CaAnalysis)
deriving DecidableEq

/-- `CodeAnalyzer.analyze_file` (code_analyzer.py:77-110).  Parsing is done by
the external CPython parser, so the function takes the parse outcome: a
`SyntaxError` message or the parsed tree.  The dict literal's values are
evaluated in source order inside `Except`, so the first raising extractor
determines the raised error. -/
def analyze_file (parsed : Except String Py) (content : String) :
    Except PyErr CaResult :=
  match parsed with
  | .error e => pure (.invalid e)
  | .ok tree => do
      let imports := extract_imports tree
      let functions ← extract_functions tree
      let classes ← extract_classes tree
      let globalVariables := extract_global_variables tree
      let constants := extract_constants tree
      let complexityMetrics ← calculate_complexity_metrics tree
      let codeQuality ← assess_code_quality tree content
      pure (.analysis {
        imports := imports, functions := functions, classes := classes,
        globalVariables := globalVariables, constants := constants,
        complexityMetrics := complexityMetrics, codeQuality := codeQuality,
        dependencies := extract_dependencies tree,
        docstringCoverage := calculate_docstring_coverage tree,
        lineCount := (content.splitOn "\n").length,
        codeLines := count_code_lines content,
        commentLines := count_comment_lines content,
        blankLines := count_blank_lines content })

end CodeAnalyzer

/-- Python `dict[k] = v`: replace in place when the key exists (dict updates
keep the original insertion position), append otherwise. -/
def pyDictInsert {α : Type} (m : List (String × α)) (k : String) (v : α) :
    List (String × α) :=
  if m.any (·.1 = k) then m.map (fun p => if p.1 = k then (k, v) else p)
  else m ++ [(k, v)]

/-- Python `dict[k]` / `k in dict`. -/
def pyDictLookup {α : Type} (m : List (String × α)) (k : String) : Option α :=
  (m.find? (·.1 = k)).map (·.2)

/-- One step of the "reverse edges" loops shared by
`FunctionExtractor._build_call_graph` and the dependents pass of
`DependencyMapper._build_dependency_graph`: when `d` is a key of the dict,
tag that entry with `m` (append `m` to the entry's reverse list via
`app`). -/
def appendTag {α : Type} (app : α → String → α) (m : String)
    (g : List (String × α)) (d : String) : List (String × α) :=
  if g.any (·.1 = d) then
    g.map (fun e => if e.1 = d then (e.1, app e.2 m) else e)
  else g

/-- The full reverse-edges pass: for every `(m, outEdges)` pair of the
snapshot `S` and every target `d` in `outEdges` (in order, once per
occurrence), tag the entry keyed `d` with `m`. -/
def transposePass {α : Type} (app : α → String → α)
    (S : List (String × List String)) (g : List (String × α)) :
    List (String × α) :=
  S.foldl (fun g nd => nd.2.foldl (appendTag app nd.1) g) g

/-! ## function_extractor.py (class FunctionExtractor) -/

namespace FunctionExtractor

/-- `FunctionExtractor._calculate_function_complexity`
(function_extractor.py:381-395) — this copy of the complexity calculation
writes the third `isinstance` test correctly with a tuple, so it never
raises: 1 + one per if/while/for (incl. async for), per except handler, per
with/async-with, plus extra operands of boolean chains. -/
def calculate_function_complexity (node : Py) : Nat :=
  (Py.walk node).foldl (fun complexity child =>
    match child with
    | .ifStmt .. | .whileStmt .. | .forStmt .. | .asyncForStmt .. =>
        complexity + 1
    | .exceptHandler .. => complexity + 1
    | .withStmt .. | .asyncWithStmt .. => complexity + 1
    | .boolOp values => complexity + (values.length - 1)
    | _ => complexity) 1

/-- `FunctionExtractor._extract_function_calls` (a verbatim sibling of the
CodeAnalyzer one). -/
def extract_function_calls (node : Py) : List String :=
  ((Py.walk node).foldl (fun calls child =>
    match child with
    | .call (.name i) _ => calls ++ [i]
    | .call (.attribute _ a) _ => calls ++ [a]
    | _ => calls) []).dedup

/-- Dataclass `FunctionDocumentation`, reduced to the fields some claim
reads: the signature's name and async flag, source position, complexity and
the two call-graph lists.  The parameter records, parsed-docstring sections
and echoed source text are pure data threading that no claim mentions. -/
structure FunctionDocumentation where
  name : String
  lineStart : Nat
  lineEnd : Nat
  isAsync : Bool
  complexity : Nat
  callsMade : List String
  calledBy : List String
deriving DecidableEq

/-- `FunctionExtractor._extract_function_documentation` on a function node:
`called_by` starts empty and is filled only by `_build_call_graph`. -/
def extract_function_documentation (node : Py) :
    Option FunctionDocumentation :=
  match node with
  | .functionDef nm _ _ _ _ lineno endLineno =>
      some { name := nm, lineStart := lineno, lineEnd := endLineno,
             isAsync := false,
             complexity := calculate_function_complexity node,
             callsMade := extract_function_calls node, calledBy := [] }
  | .asyncFunctionDef nm _ _ _ _ lineno endLineno =>
      some { name := nm, lineStart := lineno, lineEnd := endLineno,
             isAsync := true,
             complexity := calculate_function_complexity node,
             callsMade := extract_function_calls node, calledBy := [] }
  | _ => none

/-- `FunctionExtractor._build_call_graph`: for every function `f` of the map
and every name in `f.calls_made` that is a key of the map, append `f`'s key
to that entry's `called_by`.  The Python loop iterates the live dict, but the
pass mutates only `called_by` lists, never keys or `calls_made`, so it is
equivalent to folding over the initial snapshot of `(key, calls_made)`
pairs. -/
def build_call_graph (functions : List (String × FunctionDocumentation)) :
    List (String × FunctionDocumentation) :=
  transposePass (fun doc caller => { doc with calledBy := doc.calledBy ++ [caller] })
    (functions.map fun f => (f.1, f.2.callsMade)) functions

/-- The function-collection loop of `FunctionExtractor.extract_from_file`:
every function node of the walk enters a dict keyed by the signature name
(later definitions overwrite earlier ones). -/
def fe_functions (tree : Py) : List (String × FunctionDocumentation) :=
  (Py.walk tree).foldl (fun fns node =>
    match extract_function_documentation node with
    | some doc => pyDictInsert fns doc.name doc
    | none => fns) []

/-- `FunctionExtractor.extract_from_file` on a parsed tree: collect the
functions, then run the call-graph pass. -/
def extract_from_file (tree : Py) :
    List (String × FunctionDocumentation) :=
  build_call_graph (fe_functions tree)

end FunctionExtractor

/-! ## dependency_mapper.py (class DependencyMapper) -/

namespace DependencyMapper

/-- Enum `DependencyType`. -/
inductive DependencyType where
  | importDep
  | functionCall
  | classInheritance
  | variableReference
  | moduleReference
deriving DecidableEq

/-- Enum `DependencyScope`. -/
inductive DependencyScope where
  | internal
  | external
  | builtin
deriving DecidableEq

/-- Dataclass `Dependency`. -/
structure Dependency where
  source : String
  target : String
  dependencyType : DependencyType
  scope : DependencyScope
  lineNumber : Nat
  context : Option String
deriving DecidableEq

/-- The `builtin_modules` set of `DependencyMapper.__init__`. -/
def builtin_modules : List String :=
  ["os", "sys", "json", "datetime", "pathlib", "typing", "re", "collections",
   "itertools", "functools", "operator", "math", "random", "string", "time",
   "urllib", "http", "email", "html", "xml", "csv", "sqlite3", "logging",
   "unittest", "argparse", "configparser", "io", "tempfile", "shutil",
   "glob", "fnmatch", "pickle", "copy", "pprint", "textwrap", "unicodedata",
   "codecs", "base64", "binascii", "struct", "array", "weakref", "gc",
   "inspect", "dis", "ast", "keyword", "token", "tokenize", "traceback"]

/-- `DependencyMapper._determine_scope` (dependency_mapper.py:267-284),
classifying a target against the module names accumulated in `self.modules`
at call time.  The source runs two textually distinct internal checks — a
loop over `self.modules` values and `any(... for name in
self._get_project_modules())` — but both range over exactly the same module
names and both use plain string `startswith`. -/
def determine_scope (target : String) (moduleNames : List String) :
    DependencyScope :=
  if pyRoot target ∈ builtin_modules then .builtin
  else if moduleNames.any (fun nm => pyStartsWith target nm) then .internal
  else if pyStartsWith target "."
      || moduleNames.any (fun nm => pyStartsWith target nm) then .internal
  else .external

/-- `DependencyMapper._get_call_target`. -/
def get_call_target : Py → Option String
  | .call (.name i) _ => some i
  | .call (.attribute _ a) _ => some a
  | _ => none

/-- `DependencyMapper._get_name_from_node`.  On an attribute whose base is
neither a name nor an attribute chain of names, the Python f-string renders
the recursive `None` result as the text "None". -/
def get_name_from_node : Py → Option String
  | .name i => some i
  | .attribute v a =>
      some ((match get_name_from_node v with
             | some s => s
             | none => "None") ++ "." ++ a)
  | _ => none

/-- `DependencyMapper._extract_dependencies` (lines 193-253): one walk, with
an `elif` chain over Import / ImportFrom / Call / ClassDef nodes.  Scope is
determined against the module names known at this point of the project
scan. -/
def extract_dependencies (tree : Py) (sourceModule : String)
    (moduleNames : List String) : List Dependency :=
  (Py.walk tree).foldl (fun deps node =>
    match node with
    | .importStmt aliases l =>
        deps ++ aliases.map (fun a =>
          { source := sourceModule, target := a.name,
            dependencyType := .importDep,
            scope := determine_scope a.name moduleNames,
            lineNumber := l, context := some "import" })
    | .importFrom (some m) _ l =>
        deps ++ [{ source := sourceModule, target := m,
                   dependencyType := .importDep,
                   scope := determine_scope m moduleNames,
                   lineNumber := l, context := some "from_import" }]
    | .importFrom none _ _ => deps
    | .call f args =>
        match get_call_target (.call f args) with
        | some target =>
            deps ++ [{ source := sourceModule, target := target,
                       dependencyType := .functionCall,
                       scope := determine_scope target moduleNames,
                       lineNumber := 0, context := some "function_call" }]
        | none => deps
    | .classDef nm bases _ _ l _ =>
        deps ++ bases.filterMap (fun b =>
          (get_name_from_node b).map fun target =>
            { source := sourceModule, target := target,
              dependencyType := .classInheritance,
              scope := determine_scope target moduleNames,
              lineNumber := l, context := some ("class " ++ nm) })
    | _ => deps) []

/-- Dataclass `ModuleInfo` of dependency_mapper.py, reduced to the fields
the graph construction reads (`imports`/`exports`/`functions`/`classes` are
only echoed into the report's per-module statistics). -/
structure DmModuleInfo where
  name : String
  dependencies : List Dependency
deriving DecidableEq

/-- The per-file accumulation loop of `DependencyMapper.analyze_project`:
each file is analyzed with `analyze_file`, which classifies that file's
dependencies against the module names gathered so far and only afterwards
records the file in `self.modules` (so a file's own name is not yet known
while its dependencies are classified).  Module names are taken as given
(`_get_module_name` is path manipulation on the project layout). -/
def analyze_project_modules (files : List (String × Py)) :
    List (String × DmModuleInfo) :=
  files.foldl (fun modules file =>
    let deps := extract_dependencies file.2 file.1 (modules.map (·.2.name))
    pyDictInsert modules file.1 { name := file.1, dependencies := deps }) []

/-- A value of the `dependency_graph` dict. -/
structure GraphInfo where
  dependencies : List String
  dependents : List String
  internalDeps : List String
  externalDeps : List String
  builtinDeps : List String
deriving DecidableEq

/-- One iteration of the per-module dependency loop of
`_build_dependency_graph` (lines 320-328): append the target to
`dependencies` and to the list matching its scope. -/
def graph_info_step (info : GraphInfo) (dep : Dependency) : GraphInfo :=
  let info := { info with dependencies := info.dependencies ++ [dep.target] }
  match dep.scope with
  | .internal => { info with internalDeps := info.internalDeps ++ [dep.target] }
  | .external => { info with externalDeps := info.externalDeps ++ [dep.target] }
  | .builtin => { info with builtinDeps := info.builtinDeps ++ [dep.target] }

/-- The fresh graph entry built for one module (lines 312-328): all lists
start empty — in particular `dependents` — and the module's dependency
records are folded in. -/
def graph_info_of (deps : List Dependency) : GraphInfo :=
  deps.foldl graph_info_step
    { dependencies := [], dependents := [], internalDeps := [],
      externalDeps := [], builtinDeps := [] }

/-- The first pass of `_build_dependency_graph` (lines 308-328): one graph
entry per module, keyed by module name. -/
def graph_base (modules : List (String × DmModuleInfo)) :
    List (String × GraphInfo) :=
  modules.foldl (fun graph m =>
    pyDictInsert graph m.2.name (graph_info_of m.2.dependencies)) []

/-- The update applied by the dependents pass (line 334). -/
def addDependent (info : GraphInfo) (m : String) : GraphInfo :=
  { info with dependents := info.dependents ++ [m] }

/-- `DependencyMapper._build_dependency_graph` (lines 306-334).  The second
pass (lines 331-334) walks every module's full `dependencies` list — not
just the internal one — and appends the module to the target's `dependents`
whenever the target is a graph key.  It iterates the live dict but mutates
only `dependents`, so it folds over the snapshot of `(key, dependencies)`
pairs (`transposePass`). -/
def build_dependency_graph (modules : List (String × DmModuleInfo)) :
    List (String × GraphInfo) :=
  transposePass addDependent
    ((graph_base modules).map fun e => (e.1, e.2.dependencies))
    (graph_base modules)

/-- The state shared by the nested `dfs` of
`_find_circular_dependencies`: the `visited` set (grow-only) and the
accumulated `circular_deps` list.  The `rec_stack` set of the source always
equals the set of elements of the `path` argument — each active call adds
its node to both before recursing and removes it from `rec_stack` exactly
when its frame ends — so it is not carried separately. -/
structure DfsState where
  visited : List String
  circular : List (List String)
deriving DecidableEq

/-- The recursive `dfs` of `_find_circular_dependencies` (lines 395-413).
On a node already on the path: record `path[path.index(node):] + [node]`.
On a visited or unknown node: return.  Otherwise mark visited and recurse
into the node's internal deps with `path + [node]` (the source passes
`path.copy()` to each child, so siblings see the same path).  The `fuel`
argument only bounds the recursion; `find_circular_dependencies` supplies
more fuel than the recursion can consume (depth is at most the number of
distinct unvisited keys plus one, see `dfs_fuel_irrelevant`). -/
def dfs (g : List (String × GraphInfo)) :
    Nat → String → List String → DfsState → DfsState
  | 0, _, _, st => st
  | fuel + 1, node, path, st =>
    if node ∈ path then
      { st with circular :=
          st.circular ++ [path.drop (path.indexOf node) ++ [node]] }
    else if node ∈ st.visited then st
    else
      match pyDictLookup g node with
      | none => st
      | some info =>
          info.internalDeps.foldl (fun s dep => dfs g fuel dep (path ++ [node]) s)
            { st with visited := st.visited ++ [node] }

/-- `DependencyMapper._find_circular_dependencies` (lines 389-419): run the
DFS from every graph key not yet fully visited, in key order. -/
def find_circular_dependencies (g : List (String × GraphInfo)) :
    List (List String) :=
  (g.foldl (fun st e =>
    if e.1 ∈ st.visited then st else dfs g (g.length + 1) e.1 [] st)
    { visited := [], circular := [] }).circular

/-- `DependencyMapper._find_orphaned_modules`: graph keys with an empty
`dependents` list. -/
def find_orphaned_modules (g : List (String × GraphInfo)) : List String :=
  (g.filter fun e => e.2.dependents.isEmpty).map (·.1)

/-- A value of the per-module coupling dict (the source rounds `instability`
to three decimals after computing it in floating point; the exact rational is
kept here). -/
structure CouplingMetric where
  afferentCoupling : Nat
  efferentCoupling : Nat
  instability : ℚ
deriving DecidableEq

/-- Result of `_calculate_coupling_metrics`. -/
structure CouplingReport where
  moduleCoupling : List (String × CouplingMetric)
  avgAfferent : ℚ
  avgEfferent : ℚ
  avgInstability : ℚ
deriving DecidableEq

/-- `DependencyMapper._calculate_coupling_metrics` (lines 431-472):
`ca = len(dependents)`, `ce = len(internal_deps)` (list lengths, multiplicity
included), `instability = ce/(ca+ce)` with the 0/0 case defined as 0. -/
def calculate_coupling_metrics (g : List (String × GraphInfo)) :
    CouplingReport :=
  let moduleCoupling := g.map fun e =>
    let ca := e.2.dependents.length
    let ce := e.2.internalDeps.length
    (e.1, { afferentCoupling := ca, efferentCoupling := ce,
            instability := if ca + ce > 0 then (ce : ℚ) / (ca + ce) else 0
            : CouplingMetric })
  let n := g.length
  { moduleCoupling := moduleCoupling,
    avgAfferent := if n > 0 then
      ((moduleCoupling.map fun p => (p.2.afferentCoupling : ℚ)).sum / n) else 0,
    avgEfferent := if n > 0 then
      ((moduleCoupling.map fun p => (p.2.efferentCoupling : ℚ)).sum / n) else 0,
    avgInstability := if n > 0 then
      ((moduleCoupling.map fun p => p.2.instability).sum / n) else 0 }

/-- An entry of `_get_most_used_dependencies`. -/
structure MostUsedEntry where
  name : String
  count : Nat
  scope : DependencyScope
  dependencyType : DependencyType
deriving DecidableEq

/-- `DependencyMapper._get_most_used_dependencies`: occurrences of each
distinct target across all modules' dependency records (scope and kind taken
from the first occurrence), sorted by count descending — Python's stable
sort keeps first-seen order among equal counts — and truncated to the
limit. -/
def get_most_used_dependencies (modules : List (String × DmModuleInfo))
    (limit : Nat := 10) : List MostUsedEntry :=
  let allDeps := modules.foldl (fun acc m => acc ++ m.2.dependencies) []
  let entries := allDeps.foldl (fun entries dep =>
    if entries.any (fun e => e.name = dep.target) then
      entries.map fun e =>
        if e.name = dep.target then { e with count := e.count + 1 } else e
    else
      entries ++ [{ name := dep.target, count := 1, scope := dep.scope,
                    dependencyType := dep.dependencyType }]) []
  (entries.mergeSort fun a b => a.count ≥ b.count).take limit

end DependencyMapper

/-! ## Generic lemmas about the folds used by the extractors -/

/-- A left fold whose step appends a per-element batch is the flat map of the
batches. -/
theorem foldl_append_eq_flatMap {α β : Type} (step : List β → α → List β)
    (F : α → List β) (h : ∀ acc x, step acc x = acc ++ F x) (l : List α) :
    ∀ acc, l.foldl step acc = acc ++ l.flatMap F := by
  induction l with
  | nil => intro acc; simp
  | cons x xs ih =>
      intro acc
      rw [List.foldl_cons, h, ih, List.flatMap_cons, List.append_assoc]

/-! ## Concrete inputs used by the claim theorems -/

/-- The file `def add(a, b): return a + b` (spec Scenario 1). -/
def exAdd : Py :=
  .module [.functionDef "add" { args := ["a", "b"] }
    [.ret (some (.binOp (.name "a") (.name "b")))] [] none 1 1]

/-- The file `x = 1`. -/
def exAssign : Py := .module [.assign [.name "x"] (.numConst 1) 1]

/-- The file `if x:\n  if y:\n    pass` (spec Scenario 2). -/
def exNestedIf : Py :=
  .module [.ifStmt (.name "x") [.ifStmt (.name "y") [.passStmt] []] []]

/-- The statement `from X import A, B`. -/
def exFromImport : Py :=
  .module [.importFrom (some "X") [⟨"A", none⟩, ⟨"B", none⟩] 1]

/-- The statement `import X.Y`. -/
def exBareImport : Py := .module [.importStmt [⟨"X.Y", none⟩] 1]

/-- An async function definition with six positional parameters. -/
def exAsyncSix : Py :=
  .module [.asyncFunctionDef "f" { args := ["a", "b", "c", "d", "e", "g"] }
    [.passStmt] [] none 1 1]

/-- A (synchronous) function with four positional parameters plus `*args` and
`**kwargs` — six parameters in the spec's data model. -/
def exVariadic : Py :=
  .module [.functionDef "g"
    { args := ["a", "b", "c", "d"], vararg := some "args", kwarg := some "kw" }
    [.passStmt] [] none 1 1]

/-- A class with 25 synchronous methods (spec Scenario 5). -/
def exClass25 : Py :=
  .module [.classDef "C" [] ((List.range 25).map fun i =>
    .functionDef ("m" ++ toString i) { args := ["self"] } [.passStmt] []
      none (i + 2) (i + 2)) [] 1 30]

open DependencyMapper in
/-- A dependency graph whose internal edges are exactly the three-module
cycle a → b → c → a. -/
def exCycleGraph : List (String × GraphInfo) :=
  [("a", { dependencies := ["b"], dependents := [], internalDeps := ["b"],
           externalDeps := [], builtinDeps := [] }),
   ("b", { dependencies := ["c"], dependents := [], internalDeps := ["c"],
           externalDeps := [], builtinDeps := [] }),
   ("c", { dependencies := ["a"], dependents := [], internalDeps := ["a"],
           externalDeps := [], builtinDeps := [] })]

/-- A project with a module literally named `os` (shadowing the builtin) and
a module `a` that imports it. -/
def exShadowFiles : List (String × Py) :=
  [("os", .module []), ("a", .module [.importStmt [⟨"os", none⟩] 1])]

/-- A project where `a` imports the internal module `b` twice. -/
def exDupFiles : List (String × Py) :=
  [("b", .module []),
   ("a", .module [.importStmt [⟨"b", none⟩] 1, .importStmt [⟨"b", none⟩] 2])]

/-- Two files where `a` imports `b`, in the two possible scan orders. -/
def exOrderAB : List (String × Py) :=
  [("a", .module [.importStmt [⟨"b", none⟩] 1]), ("b", .module [])]

/-- See `exOrderAB`. -/
def exOrderBA : List (String × Py) :=
  [("b", .module []), ("a", .module [.importStmt [⟨"b", none⟩] 1])]

/-! ## C6 — import record granularity -/

/-- The per-statement import records actually produced by the extractor: one
record per alias of a bare import, carrying `names = [alias.name]`; one
record per `from` statement, carrying all imported names. -/
def importRecordsOf : Py → List CodeAnalyzer.ImportInfo
  | .importStmt aliases l => aliases.map fun a =>
      { module := a.name, names := [a.name], aliasName := a.asname,
        lineNumber := l, isFromImport := false }
  | .importFrom m names l =>
      [{ module := m.getD "", names := names.map (·.name), aliasName := none,
         lineNumber := l, isFromImport := true }]
  | _ => []

/-- C6, counterexample: for `from X import A, B` the extractor records ONE
`ImportInfo` whose `names` is `["A", "B"]` — not one record per name with
singleton `importedNames` — and for `import X.Y` the single record carries
`names = ["X.Y"]`, not an empty list. -/
theorem claim_C6_counterexample :
    CodeAnalyzer.extract_imports exFromImport =
      [{ module := "X", names := ["A", "B"], aliasName := none,
         lineNumber := 1, isFromImport := true }]
    ∧ (CodeAnalyzer.extract_imports exFromImport).length = 1
    ∧ CodeAnalyzer.extract_imports exBareImport =
      [{ module := "X.Y", names := ["X.Y"], aliasName := none,
         lineNumber := 1, isFromImport := false }]
    ∧ (CodeAnalyzer.extract_imports exBareImport).map (·.names) ≠ [[]] := by
  decide

/-- C6 (amended): the Symbol Extractor records, for every from-style
statement `from X import A, B`, exactly one Import record with module "X"
and importedNames ["A", "B"] (all names on one record); and for every
bare statement `import X.Y`, one Import record per alias with module
"X.Y" and importedNames ["X.Y"] (the module name itself, not empty). -/
theorem claim_C6 :
    (∀ tree, CodeAnalyzer.extract_imports tree =
      (Py.walk tree).flatMap importRecordsOf)
    ∧ (∀ aliases l, importRecordsOf (.importStmt aliases l) = aliases.map fun a =>
        { module := a.name, names := [a.name], aliasName := a.asname,
          lineNumber := l, isFromImport := false })
    ∧ (∀ m names l, importRecordsOf (.importFrom m names l) =
        [{ module := m.getD "", names := names.map (·.name), aliasName := none,
           lineNumber := l, isFromImport := true }]) := by
  refine ⟨fun tree => ?_, fun _ _ => rfl, fun _ _ _ => rfl⟩
  exact foldl_append_eq_flatMap _ importRecordsOf
    (fun acc x => by cases x <;> simp [importRecordsOf]) (Py.walk tree) []

/-! ## C9 — code-smell thresholds -/

/-- `sum(1 for item in node.body if isinstance(item, ast.FunctionDef))`. -/
def syncMethodCount (body : List Py) : Nat :=
  (body.filter fun item =>
    match item with | .functionDef .. => true | _ => false).length

/-- The smells contributed by a single walked node. -/
def smellsOf : Py → List CodeAnalyzer.Smell
  | .functionDef nm args _ _ _ l _ =>
      if args.args.length > 5 then
        [.longParameterList nm args.args.length l]
      else []
  | .classDef nm _ body _ l _ =>
      if syncMethodCount body > 20 then
        [.largeClass nm (syncMethodCount body) l]
      else []
  | _ => []

/-- C9, counterexample: an async function with six parameters, and a
synchronous function with six parameters in the data model's sense (four
positional plus `*args` and `**kwargs`), both produce NO long-parameter-list
entry — the detector tests `isinstance(node, ast.FunctionDef)` (sync only)
and counts only `node.args.args`. -/
theorem claim_C9_counterexample :
    CodeAnalyzer.detect_code_smells exAsyncSix = []
    ∧ (6 > 5 ∧ ∃ args body, exAsyncSix =
        .module [.asyncFunctionDef "f" args body [] none 1 1]
        ∧ args.args.length = 6)
    ∧ CodeAnalyzer.detect_code_smells exVariadic = []
    ∧ (∃ args body, exVariadic =
        .module [.functionDef "g" args body [] none 1 1]
        ∧ (args.args ++ (args.vararg.map fun v => "*" ++ v).toList
            ++ (args.kwarg.map fun k => "**" ++ k).toList).length = 6) := by
  refine ⟨by decide, ⟨by decide, ?_⟩, by decide, ?_⟩
  · exact ⟨_, _, rfl, rfl⟩
  · exact ⟨_, _, rfl, rfl⟩

/-- C9 (amended): the code-smell report flags exactly those synchronous
function definitions with more than 5 regular positional parameters
(`len(node.args.args)`, not counting `*args`/`**kwargs`) and exactly those
classes with more than 20 direct synchronous-method children; async
definitions are not flagged and do not count as methods.  A class with 25
(synchronous) methods yields exactly one large-class entry with method
count 25. -/
theorem claim_C9 :
    (∀ tree s, s ∈ CodeAnalyzer.detect_code_smells tree ↔
      ∃ node ∈ Py.walk tree, s ∈ smellsOf node)
    ∧ CodeAnalyzer.detect_code_smells exClass25 =
        [.largeClass "C" 25 1] := by
  constructor
  · intro tree s
    have h : CodeAnalyzer.detect_code_smells tree =
        (Py.walk tree).flatMap smellsOf := by
      refine foldl_append_eq_flatMap _ smellsOf (fun acc x => ?_)
        (Py.walk tree) []
      cases x <;> simp only [CodeAnalyzer.detect_code_smells, smellsOf,
        syncMethodCount] <;> (try (split <;> simp)) <;> simp
    rw [h, List.mem_flatMap]
  · decide

/-! ## C7 — per-function cyclomatic complexity -/

/-- The per-child increment of the (correct) function_extractor complexity
loop. -/
def feContrib : Py → Nat
  | .ifStmt .. | .whileStmt .. | .forStmt .. | .asyncForStmt .. => 1
  | .exceptHandler .. => 1
  | .withStmt .. | .asyncWithStmt .. => 1
  | .boolOp values => values.length - 1
  | _ => 0

/-- A fold that adds a per-element amount is the sum of the amounts. -/
theorem foldl_add_eq_sum {α : Type} (g : α → Nat) (l : List α) :
    ∀ n, l.foldl (fun acc x => acc + g x) n = n + (l.map g).sum := by
  induction l with
  | nil => intro n; simp
  | cons x xs ih => intro n; simp [ih, Nat.add_assoc]

/-- `FunctionExtractor._calculate_function_complexity` as one plus the sum of
per-node increments over the walk. -/
theorem fe_complexity_eq_sum (node : Py) :
    FunctionExtractor.calculate_function_complexity node =
      1 + ((Py.walk node).map feContrib).sum := by
  have h : FunctionExtractor.calculate_function_complexity node =
      (Py.walk node).foldl (fun acc x => acc + feContrib x) 1 := by
    unfold FunctionExtractor.calculate_function_complexity
    congr 1
    funext acc x
    cases x <;> simp [feContrib]
  rw [h, foldl_add_eq_sum]

/-- `walkList` distributes over append. -/
theorem walkList_append (l r : List Py) :
    Py.walkList (l ++ r) = Py.walkList l ++ Py.walkList r := by
  induction l with
  | nil => simp [Py.walkList]
  | cons x xs ih => simp [Py.walkList, ih]

/-- C7: the correct copy of the per-function complexity
(`FunctionExtractor._calculate_function_complexity`) is 1 plus one increment
per branching construct, hence ≥ 1, and inserting one `if x: pass` into a
body raises it by exactly 1, and on `def add(a, b): return a + b` the
function extractor yields exactly one entry named add with complexity 1;
but the CodeAnalyzer copy the claim's scenario runs through
(`CodeAnalyzer._extract_functions` → `_calculate_function_complexity`,
code_analyzer.py:424) raises `TypeError` on that same input instead of
producing a FunctionInfo, because its third branch calls `isinstance` with
three arguments. -/
theorem claim_C7 :
    (∀ node, 1 ≤ FunctionExtractor.calculate_function_complexity node)
    ∧ (∀ nm a l r d rr li le v,
        FunctionExtractor.calculate_function_complexity
          (.functionDef nm a (l ++ .ifStmt (.name v) [.passStmt] [] :: r)
            d rr li le)
        = FunctionExtractor.calculate_function_complexity
            (.functionDef nm a (l ++ r) d rr li le) + 1)
    ∧ FunctionExtractor.extract_from_file exAdd =
        [("add", { name := "add", lineStart := 1, lineEnd := 1,
                   isAsync := false, complexity := 1, callsMade := [],
                   calledBy := [] })]
    ∧ CodeAnalyzer.extract_functions exAdd = .error .typeError := by
  refine ⟨fun node => ?_, fun nm a l r d rr li le v => ?_, by decide, by rfl⟩
  · rw [fe_complexity_eq_sum]; omega
  · rw [fe_complexity_eq_sum, fe_complexity_eq_sum]
    have hsplit : l ++ Py.ifStmt (.name v) [.passStmt] [] :: r =
        (l ++ [Py.ifStmt (.name v) [.passStmt] []]) ++ r := by simp
    rw [hsplit]
    simp [Py.walk, walkList_append, Py.walkList, feContrib]
    omega

/-! ## C1 — extractor boundary behavior of analyze_file -/

/-- The file-level cyclomatic computation raises on every parsed module: the
first walked node is the `Module` root, which falls through to the broken
three-argument `isinstance` branch. -/
theorem calculate_cyclomatic_complexity_module_err (body : List Py) :
    CodeAnalyzer.calculate_cyclomatic_complexity (.module body) =
      .error .typeError := by
  simp [CodeAnalyzer.calculate_cyclomatic_complexity, Py.walk]
  rfl

/-- C1: the syntax-error half of the claim holds — on unparseable text
`analyze_file` returns an `{'error': ..., 'valid': False}` result without
raising — but the other half fails: on EVERY syntactically valid file
`analyze_file` raises (`TypeError` from the three-argument `isinstance` at
code_analyzer.py:424/516, reached at the latest inside
`_calculate_complexity_metrics`); in particular on the file `x = 1`. -/
theorem claim_C1 :
    (∀ msg content, CodeAnalyzer.analyze_file (.error msg) content =
      .ok (.invalid msg))
    ∧ (∀ body content, ∃ err,
        CodeAnalyzer.analyze_file (.ok (.module body)) content = .error err)
    ∧ CodeAnalyzer.analyze_file (.ok exAssign) "x = 1" =
        .error .typeError := by
  refine ⟨fun msg content => rfl, fun body content => ?_, by rfl⟩
  have hmet : CodeAnalyzer.calculate_complexity_metrics (.module body) =
      .error .typeError := by
    unfold CodeAnalyzer.calculate_complexity_metrics
    rw [calculate_cyclomatic_complexity_module_err]; rfl
  cases h1 : CodeAnalyzer.extract_functions (.module body) with
  | error e =>
      exact ⟨e, by simp [CodeAnalyzer.analyze_file, h1, Bind.bind, Except.bind]⟩
  | ok fs =>
      cases h2 : CodeAnalyzer.extract_classes (.module body) with
      | error e =>
          exact ⟨e, by
            simp [CodeAnalyzer.analyze_file, h1, h2, Bind.bind, Except.bind]⟩
      | ok cs =>
          exact ⟨.typeError, by
            simp [CodeAnalyzer.analyze_file, h1, h2, hmet, Bind.bind,
              Except.bind]⟩

/-! ## C2 — scope classification -/

/-- The scope classification as the amended claim states it: builtin first,
then internal when the target plainly starts with any known module name or
with a relative-import dot, otherwise external. -/
def scopeSpec (target : String) (moduleNames : List String) :
    DependencyMapper.DependencyScope :=
  if pyRoot target ∈ DependencyMapper.builtin_modules then .builtin
  else if moduleNames.any (fun nm => pyStartsWith target nm)
      || pyStartsWith target "." then .internal
  else .external

/-- C2, counterexample: with known project module "foo", the target "foobar"
is classified Internal although it neither equals "foo", nor is dot-prefixed
by it, nor starts with a relative-import marker (the source tests plain
`startswith`); and the classification recorded for module `a`'s import of
`b` during a project scan depends on the file order (External when `a` is
scanned first, Internal when `b` is), so it is not a function of the
complete module-name set. -/
theorem claim_C2_counterexample :
    DependencyMapper.determine_scope "foobar" ["foo"] = .internal
    ∧ "foobar" ≠ "foo"
    ∧ ¬ pyStartsWith "foobar" "foo."
    ∧ ¬ pyStartsWith "foobar" "."
    ∧ ((DependencyMapper.analyze_project_modules exOrderAB).map fun m =>
        (m.1, m.2.dependencies.map (·.scope)))
      = [("a", [.external]), ("b", [])]
    ∧ ((DependencyMapper.analyze_project_modules exOrderBA).map fun m =>
        (m.1, m.2.dependencies.map (·.scope)))
      = [("b", []), ("a", [.internal])] := by
  refine ⟨by decide, by decide, by decide, by decide, by decide, by decide⟩

/-- C2 (amended): `_determine_scope` is total with Builtin taking precedence
(the equation below fixes its value on every input): Builtin whenever the
root component is a known builtin name, else Internal iff the target starts
with (plain string prefix, not dot-aware) some module name known AT THE TIME
OF CLASSIFICATION or starts with ".", else External.  It is a pure function
of `(target, module names known so far, builtin set)`; during a project scan
the module-name set contains only previously analyzed files, so results can
depend on scan order. -/
theorem claim_C2 :
    ∀ target moduleNames,
      DependencyMapper.determine_scope target moduleNames =
        scopeSpec target moduleNames := by
  intro target moduleNames
  unfold DependencyMapper.determine_scope scopeSpec
  by_cases hb : pyRoot target ∈ DependencyMapper.builtin_modules
  · simp [hb]
  · by_cases ha : moduleNames.any (fun nm => pyStartsWith target nm)
    · simp [hb, ha]
    · by_cases hd : pyStartsWith target "."
      · simp [hb, ha, hd]
      · simp [hb, ha, hd]

/-! ## The reverse-edges pass in closed form -/

/-- Folding `appendTag` over one out-edge list tags each entry once per
occurrence of its key. -/
theorem appendTag_foldl {α : Type} (app : α → String → α) (m : String)
    (deps : List String) : ∀ (g : List (String × α)),
    deps.foldl (appendTag app m) g =
      g.map (fun e => (e.1,
        ((deps.filter (fun dd => dd = e.1)).map fun _ => m).foldl app e.2)) := by
  induction deps with
  | nil => intro g; simp
  | cons d rest ih =>
      intro g
      rw [List.foldl_cons]
      by_cases h : g.any (fun e => e.1 = d)
      · rw [show appendTag app m g d =
            g.map (fun e => if e.1 = d then (e.1, app e.2 m) else e) from by
          simp [appendTag, h]]
        rw [ih, List.map_map]
        refine List.map_congr_left fun e _ => ?_
        by_cases hed : e.1 = d
        · simp [Function.comp, hed, List.filter_cons]
        · have hne : ¬ (d = e.1) := fun hc => hed hc.symm
          simp [Function.comp, hed, List.filter_cons, hne]
      · rw [show appendTag app m g d = g from by simp [appendTag, h]]
        rw [ih]
        refine List.map_congr_left fun e he => ?_
        have hne : ¬ (d = e.1) := by
          intro hcontra
          exact h (List.any_eq_true.mpr ⟨e, he, by simp [hcontra.symm]⟩)
        simp [List.filter_cons, hne]

/-- The whole reverse-edges pass in closed form: each entry's value is tagged
by every pair of the snapshot whose out-edges mention the entry's key, in
snapshot order, once per occurrence. -/
theorem transposePass_eq {α : Type} (app : α → String → α) :
    ∀ (S : List (String × List String)) (g : List (String × α)),
    transposePass app S g = g.map (fun e => (e.1,
      (S.flatMap fun nd =>
        (nd.2.filter (fun dd => dd = e.1)).map fun _ => nd.1).foldl
        app e.2)) := by
  intro S
  induction S with
  | nil => intro g; simp [transposePass]
  | cons nd rest ih =>
      intro g
      have h1 : transposePass app (nd :: rest) g =
          transposePass app rest (nd.2.foldl (appendTag app nd.1) g) := by
        simp [transposePass]
      rw [h1, appendTag_foldl, ih, List.map_map]
      refine List.map_congr_left fun e _ => ?_
      simp [Function.comp, List.foldl_append]

/-! ## Dictionary lemmas -/

/-- `pyDictInsert` keeps the keys when overwriting, appends otherwise. -/
theorem pyDictInsert_map_fst {α : Type} (m : List (String × α)) (k : String)
    (v : α) : (pyDictInsert m k v).map Prod.fst =
      if m.any (·.1 = k) then m.map Prod.fst else m.map Prod.fst ++ [k] := by
  unfold pyDictInsert
  split
  · rw [List.map_map]
    refine List.map_congr_left fun e _ => ?_
    by_cases he : e.1 = k <;> simp [Function.comp, he]
  · simp

/-- `pyDictInsert` preserves distinctness of keys. -/
theorem pyDictInsert_keys_nodup {α : Type} {m : List (String × α)}
    (k : String) (v : α) (h : (m.map Prod.fst).Nodup) :
    ((pyDictInsert m k v).map Prod.fst).Nodup := by
  rw [pyDictInsert_map_fst]
  split
  · exact h
  · next hany =>
    rw [List.nodup_append]
    refine ⟨h, List.nodup_singleton k, ?_⟩
    intro x hx hk
    simp at hk
    subst hk
    rcases List.mem_map.mp hx with ⟨e, he, hfst⟩
    exact hany (List.any_eq_true.mpr ⟨e, he, by simp [hfst]⟩)

/-- Any fold that only inserts through `pyDictInsert` keeps keys distinct. -/
theorem foldl_pyDictInsert_keys_nodup {α β : Type} (kf : β → String)
    (vf : List (String × α) → β → α) :
    ∀ (l : List β) (g : List (String × α)), (g.map Prod.fst).Nodup →
    ((l.foldl (fun g b => pyDictInsert g (kf b) (vf g b)) g).map
      Prod.fst).Nodup := by
  intro l
  induction l with
  | nil => intro g h; exact h
  | cons b rest ih =>
      intro g h
      exact ih _ (pyDictInsert_keys_nodup _ _ h)

/-- An entry invariant survives `pyDictInsert` when the inserted value has
it. -/
theorem pyDictInsert_forall {α : Type} {P : String × α → Prop}
    {m : List (String × α)} {k : String} {v : α}
    (hm : ∀ e ∈ m, P e) (hv : P (k, v)) :
    ∀ e ∈ pyDictInsert m k v, P e := by
  unfold pyDictInsert
  split
  · intro e he
    rcases List.mem_map.mp he with ⟨e', he', rfl⟩
    by_cases h' : e'.1 = k
    · simpa [h'] using hv
    · simpa [h'] using hm e' he'
  · intro e he
    rcases List.mem_append.mp he with h' | h'
    · exact hm e h'
    · simp at h'
      subst h'
      exact hv

/-- Looking up in a key-preserving map of a dict. -/
theorem pyDictLookup_map_val {α β : Type} (g : List (String × α))
    (h : String × α → β) (k : String) :
    pyDictLookup (g.map fun e => (e.1, h e)) k =
      (g.find? (fun e => e.1 = k)).map h := by
  unfold pyDictLookup
  rw [List.find?_map, Option.map_map]
  rfl

/-- A successful lookup exhibits a member with the looked-up key. -/
theorem pyDictLookup_mem {α : Type} {g : List (String × α)} {k : String}
    {v : α} (h : pyDictLookup g k = some v) : (k, v) ∈ g := by
  unfold pyDictLookup at h
  rcases Option.map_eq_some'.mp h with ⟨e, hfind, hv⟩
  have hmem := List.mem_of_find?_eq_some hfind
  have hkey := List.find?_some hfind
  simp at hkey
  subst hv
  rw [← hkey]
  exact hmem

/-- With distinct keys, two members sharing a key are the same entry. -/
theorem mem_eq_of_nodup_keys {α : Type} {g : List (String × α)}
    (h : (g.map Prod.fst).Nodup) {e e' : String × α}
    (he : e ∈ g) (he' : e' ∈ g) (hk : e.1 = e'.1) : e = e' :=
  List.inj_on_of_nodup_map h he he' hk

/-! ## C3 — dependents as a transpose -/

/-- Folding `addDependent` appends the whole tag list. -/
theorem foldl_addDependent (xs : List String) :
    ∀ i : DependencyMapper.GraphInfo,
    xs.foldl DependencyMapper.addDependent i =
      { i with dependents := i.dependents ++ xs } := by
  induction xs with
  | nil => intro i; simp
  | cons x rest ih =>
      intro i
      rw [List.foldl_cons, ih]
      simp [DependencyMapper.addDependent]

/-- `graph_info_step` never touches `dependents`. -/
theorem graph_info_step_dependents
    (info : DependencyMapper.GraphInfo) (dep : DependencyMapper.Dependency) :
    (DependencyMapper.graph_info_step info dep).dependents =
      info.dependents := by
  unfold DependencyMapper.graph_info_step
  cases dep.scope <;> rfl

/-- The per-module fold never changes `dependents`. -/
theorem graph_info_foldl_dependents (deps : List DependencyMapper.Dependency) :
    ∀ init : DependencyMapper.GraphInfo,
    (deps.foldl DependencyMapper.graph_info_step init).dependents =
      init.dependents := by
  induction deps with
  | nil => intro init; rfl
  | cons d rest ih =>
      intro init
      rw [List.foldl_cons, ih, graph_info_step_dependents]

/-- Fresh graph entries carry an empty `dependents` list. -/
theorem graph_info_of_dependents (deps : List DependencyMapper.Dependency) :
    (DependencyMapper.graph_info_of deps).dependents = [] := by
  unfold DependencyMapper.graph_info_of
  rw [graph_info_foldl_dependents]

/-- The first graph pass has distinct keys (it is a Python dict). -/
theorem graph_base_keys_nodup (modules :
    List (String × DependencyMapper.DmModuleInfo)) :
    ((DependencyMapper.graph_base modules).map Prod.fst).Nodup := by
  unfold DependencyMapper.graph_base
  exact foldl_pyDictInsert_keys_nodup (fun m => m.2.name)
    (fun _ m => DependencyMapper.graph_info_of m.2.dependencies) modules []
    (by simp)

/-- Every entry of the first pass has an empty `dependents` list. -/
theorem graph_base_dependents_nil (modules :
    List (String × DependencyMapper.DmModuleInfo)) :
    ∀ e ∈ DependencyMapper.graph_base modules, e.2.dependents = [] := by
  unfold DependencyMapper.graph_base
  generalize hg : ([] : List (String × DependencyMapper.GraphInfo)) = g0
  have h0 : ∀ e ∈ g0, e.2.dependents = ([] : List String) := by
    rw [← hg]; intro e he; cases he
  clear hg
  induction modules generalizing g0 with
  | nil => simpa using h0
  | cons m rest ih =>
      rw [List.foldl_cons]
      refine ih _ (pyDictInsert_forall h0 ?_)
      exact graph_info_of_dependents m.2.dependencies

/-- The built graph in closed form: each entry of the first pass, with its
`dependents` replaced by the list of modules whose dependencies mention its
key (once per occurrence, in graph order). -/
theorem build_dependency_graph_eq (modules :
    List (String × DependencyMapper.DmModuleInfo)) :
    DependencyMapper.build_dependency_graph modules =
      (DependencyMapper.graph_base modules).map (fun e => (e.1,
        { e.2 with dependents := e.2.dependents ++
            (((DependencyMapper.graph_base modules).map fun b =>
                (b.1, b.2.dependencies)).flatMap fun nd =>
              (nd.2.filter (fun dd => dd = e.1)).map fun _ => nd.1) })) := by
  unfold DependencyMapper.build_dependency_graph
  rw [transposePass_eq]
  exact List.map_congr_left fun e _ => by rw [foldl_addDependent]

/-- C3 (amended): in the built graph, M appears in N's dependents exactly
when N appears in M's FULL dependencies list (any scope: internal, external
or builtin) — `dependents` is the transpose of all dependency edges
restricted to targets present in the graph, not of the internal edges
only. -/
theorem claim_C3 (modules : List (String × DependencyMapper.DmModuleInfo))
    (M N : String) (gM gN : DependencyMapper.GraphInfo)
    (hM : pyDictLookup (DependencyMapper.build_dependency_graph modules) M =
      some gM)
    (hN : pyDictLookup (DependencyMapper.build_dependency_graph modules) N =
      some gN) :
    M ∈ gN.dependents ↔ N ∈ gM.dependencies := by
  rw [build_dependency_graph_eq, pyDictLookup_map_val] at hM hN
  rcases Option.map_eq_some'.mp hM with ⟨eM, hMfind, hMv⟩
  rcases Option.map_eq_some'.mp hN with ⟨eN, hNfind, hNv⟩
  have hMmem := List.mem_of_find?_eq_some hMfind
  have hNmem := List.mem_of_find?_eq_some hNfind
  have hMkey : eM.1 = M := by simpa using List.find?_some hMfind
  have hNkey : eN.1 = N := by simpa using List.find?_some hNfind
  have hnodup := graph_base_keys_nodup modules
  have hdepsM : gM.dependencies = eM.2.dependencies := by rw [← hMv]
  have hdepN : gN.dependents =
      (((DependencyMapper.graph_base modules).map fun b =>
          (b.1, b.2.dependencies)).flatMap fun nd =>
        (nd.2.filter (fun dd => dd = eN.1)).map fun _ => nd.1) := by
    rw [← hNv]
    simp [graph_base_dependents_nil modules eN hNmem]
  rw [hdepN, hdepsM, hNkey]
  constructor
  · intro hmem
    simp only [List.mem_flatMap, List.mem_map, List.mem_filter] at hmem
    rcases hmem with ⟨nd, hndS, ⟨dd, ⟨hddmem, hddN⟩, hndM⟩⟩
    rcases hndS with ⟨b, hb, rfl⟩
    have hbM : b.1 = M := hndM
    have : b = eM := mem_eq_of_nodup_keys hnodup hb hMmem (hbM.trans hMkey.symm)
    subst this
    have : dd = N := by simpa using hddN
    subst this
    exact hddmem
  · intro hmem
    simp only [List.mem_flatMap, List.mem_map, List.mem_filter]
    exact ⟨(eM.1, eM.2.dependencies), ⟨eM, hMmem, rfl⟩,
      ⟨N, ⟨hmem, by simp⟩, hMkey⟩⟩

/-- C3, counterexample: in a project with a module literally named `os`
shadowed by the builtin, `a`'s import of `os` is classified Builtin, so `os`
never enters `a`'s internalDeps — yet the dependents pass walks the FULL
dependencies list, so `a` appears in `os`'s dependents.  Both modules are in
the graph, `a` is in `os`'s dependents, and `os` is not in `a`'s
internalDeps, contradicting the claimed transpose of internalDeps. -/
theorem claim_C3_counterexample :
    (pyDictLookup (DependencyMapper.build_dependency_graph
      (DependencyMapper.analyze_project_modules exShadowFiles)) "os").map
        (·.dependents) = some ["a"]
    ∧ (pyDictLookup (DependencyMapper.build_dependency_graph
        (DependencyMapper.analyze_project_modules exShadowFiles)) "a").map
          (·.internalDeps) = some []
    ∧ (pyDictLookup (DependencyMapper.build_dependency_graph
        (DependencyMapper.analyze_project_modules exShadowFiles)) "a").map
          (·.dependencies) = some ["os"] := by
  refine ⟨by decide, by decide, by decide⟩

/-- Witness for the amended C3 at the shadowed-builtin project. -/
theorem claim_C3_witness :
    "a" ∈ (DependencyMapper.GraphInfo.dependents
      { dependencies := [], dependents := ["a"], internalDeps := [],
        externalDeps := [], builtinDeps := [] })
    ↔ "os" ∈ (DependencyMapper.GraphInfo.dependencies
      { dependencies := ["os"], dependents := [], internalDeps := [],
        externalDeps := [], builtinDeps := ["os"] }) :=
  claim_C3 (DependencyMapper.analyze_project_modules exShadowFiles) "a" "os"
    _ _ (by decide) (by decide)

/-! ## C4 — coupling metrics -/

/-- C4, counterexample: when `a` imports the internal module `b` twice, the
coupling pass reports efferentCoupling 2 for `a` — `len(internal_deps)`
counts edge multiplicity — while the number of DISTINCT internal targets
is 1. -/
theorem claim_C4_counterexample :
    (pyDictLookup (DependencyMapper.calculate_coupling_metrics
      (DependencyMapper.build_dependency_graph
        (DependencyMapper.analyze_project_modules exDupFiles))).moduleCoupling
      "a").map (·.efferentCoupling) = some 2
    ∧ (pyDictLookup (DependencyMapper.build_dependency_graph
        (DependencyMapper.analyze_project_modules exDupFiles)) "a").map
          (fun i => i.internalDeps.dedup.length) = some 1
    ∧ (2 : Nat) ≠ 1 := by
  refine ⟨by decide, by decide, by decide⟩

/-- C4 (amended): for every module of the built graph, afferentCoupling is
the length of its dependents list, efferentCoupling is the LENGTH of its
internalDeps list (counting edge multiplicity, not distinct targets),
instability is efferent/(afferent+efferent) with 0/0 defined as 0 (the
source rounds the reported float to three decimals; the exact rational is
modelled), and instability always lies in [0,1]. -/
theorem claim_C4 (g : List (String × DependencyMapper.GraphInfo)) (m : String)
    (c : DependencyMapper.CouplingMetric)
    (h : pyDictLookup
      (DependencyMapper.calculate_coupling_metrics g).moduleCoupling m =
        some c) :
    ∃ info, pyDictLookup g m = some info
      ∧ c.afferentCoupling = info.dependents.length
      ∧ c.efferentCoupling = info.internalDeps.length
      ∧ c.instability =
          (if c.afferentCoupling + c.efferentCoupling > 0 then
            (c.efferentCoupling : ℚ) /
              ((c.afferentCoupling : ℚ) + (c.efferentCoupling : ℚ))
          else 0)
      ∧ 0 ≤ c.instability ∧ c.instability ≤ 1 := by
  have hmc : (DependencyMapper.calculate_coupling_metrics g).moduleCoupling =
      g.map fun e => (e.1,
        { afferentCoupling := e.2.dependents.length,
          efferentCoupling := e.2.internalDeps.length,
          instability :=
            if e.2.dependents.length + e.2.internalDeps.length > 0 then
              (e.2.internalDeps.length : ℚ) /
                ((e.2.dependents.length : ℚ) + (e.2.internalDeps.length : ℚ))
            else 0 : DependencyMapper.CouplingMetric }) := rfl
  rw [hmc, pyDictLookup_map_val] at h
  rcases Option.map_eq_some'.mp h with ⟨e, hfind, hv⟩
  subst hv
  refine ⟨e.2, ?_, rfl, rfl, rfl, ?_, ?_⟩
  · unfold pyDictLookup
    rw [hfind]
    rfl
  · simp only
    split
    · positivity
    · norm_num
  · simp only
    split
    · next hpos =>
      have hQ : (0 : ℚ) < (e.2.dependents.length : ℚ) +
          (e.2.internalDeps.length : ℚ) := by exact_mod_cast hpos
      rw [div_le_one hQ]
      exact_mod_cast Nat.le_add_left e.2.internalDeps.length
        e.2.dependents.length
    · norm_num

/-- Witness for the amended C4 on a one-module graph with no edges (the 0/0
case of instability). -/
theorem claim_C4_witness :
    ∃ info, pyDictLookup
      [("m", ({ dependencies := [], dependents := [], internalDeps := [],
                externalDeps := [], builtinDeps := [] } :
                  DependencyMapper.GraphInfo))] "m" = some info
      ∧ (0 : Nat) = info.dependents.length
      ∧ (0 : Nat) = info.internalDeps.length
      ∧ (0 : ℚ) = (if (0 : Nat) + (0 : Nat) > 0 then
          ((0 : Nat) : ℚ) / (((0 : Nat) : ℚ) + ((0 : Nat) : ℚ)) else 0)
      ∧ (0 : ℚ) ≤ (0 : ℚ) ∧ (0 : ℚ) ≤ 1 := by
  have h := claim_C4
    [("m", ({ dependencies := [], dependents := [], internalDeps := [],
              externalDeps := [], builtinDeps := [] } :
                DependencyMapper.GraphInfo))] "m"
    { afferentCoupling := 0, efferentCoupling := 0, instability := 0 }
    (by decide)
  simpa using h

/-! ## C5 — cycle detection -/

/-- The internal-dependency edge relation of the built graph, as `dfs`
follows it: from a graph key to each entry of its internalDeps list. -/
def edgeRel (g : List (String × DependencyMapper.GraphInfo))
    (a b : String) : Prop :=
  ∃ info, pyDictLookup g a = some info ∧ b ∈ info.internalDeps

/-- Acyclicity of the internal-dependency edges. -/
def AcyclicInternal (g : List (String × DependencyMapper.GraphInfo)) : Prop :=
  ∀ n, ¬ Relation.TransGen (edgeRel g) n n

/-- A nonempty edge chain from `a` to `b` gives transitive reachability. -/
theorem chain'_transGen {α : Type} (R : α → α → Prop) :
    ∀ (l : List α) (a b : α), List.Chain' R (a :: l ++ [b]) →
      Relation.TransGen R a b := by
  intro l
  induction l with
  | nil =>
      intro a b h
      rcases List.chain'_cons.mp h with ⟨hab, _⟩
      exact Relation.TransGen.single hab
  | cons c rest ih =>
      intro a b h
      rcases List.chain'_cons.mp h with ⟨hac, hrest⟩
      exact Relation.TransGen.head hac (ih c b hrest)

/-- A node occurring on a path that chains to it closes a cycle. -/
theorem cycle_of_mem_path {α : Type} (R : α → α → Prop) {path : List α}
    {node : α} (hchain : List.Chain' R (path ++ [node]))
    (hmem : node ∈ path) : Relation.TransGen R node node := by
  rcases List.append_of_mem hmem with ⟨pre, post, rfl⟩
  rw [List.append_assoc, List.cons_append] at hchain
  have hsuffix : List.Chain' R (node :: (post ++ [node])) :=
    (List.chain'_append.mp hchain).2.1
  exact chain'_transGen R post node node hsuffix

/-- On an acyclic graph `dfs` never records a cycle, whatever its fuel, as
long as the incoming path chains into the current node (which the top-level
calls with empty paths satisfy). -/
theorem dfs_acyclic (g : List (String × DependencyMapper.GraphInfo))
    (hA : AcyclicInternal g) :
    ∀ (fuel : Nat) (node : String) (path : List String)
      (st : DependencyMapper.DfsState),
      List.Chain' (edgeRel g) (path ++ [node]) →
      (DependencyMapper.dfs g fuel node path st).circular = st.circular := by
  intro fuel
  induction fuel with
  | zero => intro node path st _; rfl
  | succ f ih =>
      intro node path st hchain
      unfold DependencyMapper.dfs
      by_cases hpath : node ∈ path
      · exact absurd (cycle_of_mem_path _ hchain hpath) (hA node)
      · simp only [hpath, if_false]
        by_cases hvis : node ∈ st.visited
        · simp [hvis]
        · simp only [hvis, if_false]
          cases hlook : pyDictLookup g node with
          | none => rfl
          | some info =>
              simp only
              have haux : ∀ (deps : List String),
                  (∀ d ∈ deps, d ∈ info.internalDeps) →
                  ∀ s : DependencyMapper.DfsState, s.circular = st.circular →
                  ((deps.foldl (fun s dep =>
                    DependencyMapper.dfs g f dep (path ++ [node]) s)
                      s).circular = st.circular) := by
                intro deps
                induction deps with
                | nil => intro _ s hs; exact hs
                | cons d rest ihd =>
                    intro hsub s hs
                    rw [List.foldl_cons]
                    refine ihd (fun x hx => hsub x (List.mem_cons_of_mem _ hx))
                      _ ?_
                    have hlink : edgeRel g node d :=
                      ⟨info, hlook, hsub d (List.mem_cons_self _ _)⟩
                    have hchain' :
                        List.Chain' (edgeRel g) ((path ++ [node]) ++ [d]) := by
                      rw [List.chain'_append]
                      refine ⟨hchain, List.chain'_singleton d, ?_⟩
                      intro x hx y hy
                      simp at hy
                      subst hy
                      rw [List.getLast?_concat] at hx
                      simp at hx
                      subst hx
                      exact hlink
                    rw [ih d (path ++ [node]) s hchain', hs]
              exact haux info.internalDeps (fun d hd => hd) _ rfl

/-- C5: on the three-module internal cycle a→b→c→a the DFS reports exactly
the single rotation [a, b, c, a] (whose module set is {a, b, c}); on every
acyclic internal-dependency graph it reports nothing; and a node already in
the visited set is never re-explored as a DFS root — the dfs call on it
returns the state unchanged. -/
theorem claim_C5 :
    (DependencyMapper.find_circular_dependencies exCycleGraph =
      [["a", "b", "c", "a"]]
      ∧ (["a", "b", "c", "a"] : List String).toFinset = {"a", "b", "c"})
    ∧ (∀ g, AcyclicInternal g →
        DependencyMapper.find_circular_dependencies g = [])
    ∧ (∀ g fuel node visited circular, node ∈ visited →
        DependencyMapper.dfs g (fuel + 1) node []
          { visited := visited, circular := circular } =
          { visited := visited, circular := circular }) := by
  refine ⟨⟨by decide, by decide⟩, fun g hA => ?_, ?_⟩
  · unfold DependencyMapper.find_circular_dependencies
    have haux : ∀ (entries : List (String × DependencyMapper.GraphInfo))
        (st : DependencyMapper.DfsState),
        ((entries.foldl (fun st e =>
          if e.1 ∈ st.visited then st
          else DependencyMapper.dfs g (g.length + 1) e.1 [] st) st).circular)
          = st.circular := by
      intro entries
      induction entries with
      | nil => intro st; rfl
      | cons e rest ihe =>
          intro st
          rw [List.foldl_cons]
          split
          · exact ihe st
          · rw [ihe, dfs_acyclic g hA (g.length + 1) e.1 [] st
              (by simp)]
    rw [haux]
  · intro g fuel node visited circular h
    unfold DependencyMapper.dfs
    simp [h]

/-- The DFS termination measure: graph keys not yet visited. -/
def unvisitedCount (g : List (String × DependencyMapper.GraphInfo))
    (st : DependencyMapper.DfsState) : Nat :=
  (g.map Prod.fst).countP (fun k => !decide (k ∈ st.visited))

/-- A strict `countP` comparison: a pointwise-weaker predicate that loses at
least one member counts strictly fewer. -/
theorem countP_lt_of_flip {α : Type} (p q : α → Bool) :
    ∀ (l : List α), (∀ a ∈ l, p a → q a) →
      ∀ a ∈ l, q a → ¬ p a → l.countP p < l.countP q := by
  intro l
  induction l with
  | nil => intro _ a ha; cases ha
  | cons x xs ih =>
      intro hpq a ha hqa hpa
      rw [List.countP_cons, List.countP_cons]
      rcases List.mem_cons.mp ha with rfl | ha'
      · have hmono : xs.countP p ≤ xs.countP q :=
          List.countP_mono_left (fun b hb => hpq b (List.mem_cons_of_mem _ hb))
        simp only [hqa, Bool.not_eq_true] at *
        simp [hpa, hqa]
        omega
      · have hlt := ih (fun b hb => hpq b (List.mem_cons_of_mem _ hb))
          a ha' hqa hpa
        have hx := hpq x (List.mem_cons_self _ _)
        by_cases hpx : p x
        · simp [hpx, hx hpx]; omega
        · simp [hpx]; omega

/-- Growing the visited set cannot increase the measure. -/
theorem unvisitedCount_mono (g : List (String × DependencyMapper.GraphInfo))
    {st st' : DependencyMapper.DfsState}
    (h : st.visited ⊆ st'.visited) :
    unvisitedCount g st' ≤ unvisitedCount g st := by
  refine List.countP_mono_left fun k _ hk => ?_
  simp only [Bool.not_eq_true', decide_eq_false_iff_not] at hk ⊢
  exact fun hmem => hk (h hmem)

/-- Visiting a not-yet-visited graph key strictly decreases the measure. -/
theorem unvisitedCount_insert_lt
    (g : List (String × DependencyMapper.GraphInfo))
    (st : DependencyMapper.DfsState) (node : String)
    (hkey : node ∈ g.map Prod.fst) (hnew : node ∉ st.visited) :
    unvisitedCount g { st with visited := st.visited ++ [node] } <
      unvisitedCount g st := by
  refine countP_lt_of_flip _ _ (g.map Prod.fst) (fun a _ ha => ?_)
    node hkey (by simpa using hnew) (by simp)
  simp only [Bool.not_eq_true', decide_eq_false_iff_not] at ha ⊢
  intro hmem
  exact ha (List.mem_append_left _ hmem)

/-- `dfs` only ever grows the visited set. -/
theorem dfs_visited_mono (g : List (String × DependencyMapper.GraphInfo)) :
    ∀ (fuel : Nat) (node : String) (path : List String)
      (st : DependencyMapper.DfsState),
      st.visited ⊆ (DependencyMapper.dfs g fuel node path st).visited := by
  intro fuel
  induction fuel with
  | zero => intro node path st; exact fun x hx => hx
  | succ f ih =>
      intro node path st
      unfold DependencyMapper.dfs
      by_cases hpath : node ∈ path
      · simp [hpath]
      · simp only [hpath, if_false]
        by_cases hvis : node ∈ st.visited
        · simp [hvis]
        · simp only [hvis, if_false]
          cases hlook : pyDictLookup g node with
          | none => exact fun x hx => hx
          | some info =>
              simp only
              have haux : ∀ (deps : List String)
                  (s : DependencyMapper.DfsState),
                  s.visited ⊆ ((deps.foldl (fun s dep =>
                    DependencyMapper.dfs g f dep (path ++ [node]) s)
                      s).visited) := by
                intro deps
                induction deps with
                | nil => intro s; exact fun x hx => hx
                | cons d rest ihd =>
                    intro s
                    rw [List.foldl_cons]
                    exact fun x hx => ihd _ (ih d (path ++ [node]) s hx)
              exact fun x hx =>
                haux info.internalDeps _ (List.mem_append_left _ hx)

/-- Any two fuels above the measure drive `dfs` to the same result: the fuel
is a recursion bound, not an observable part of the algorithm. -/
theorem dfs_fuel_irrelevant (g : List (String × DependencyMapper.GraphInfo)) :
    ∀ (fuel₁ fuel₂ : Nat) (node : String) (path : List String)
      (st : DependencyMapper.DfsState),
      unvisitedCount g st < fuel₁ → unvisitedCount g st < fuel₂ →
      DependencyMapper.dfs g fuel₁ node path st =
        DependencyMapper.dfs g fuel₂ node path st := by
  intro fuel₁
  induction fuel₁ with
  | zero => intro fuel₂ node path st h1 _; omega
  | succ f1 ih =>
      intro fuel₂ node path st h1 h2
      cases fuel₂ with
      | zero => omega
      | succ f2 =>
          unfold DependencyMapper.dfs
          by_cases hpath : node ∈ path
          · simp [hpath]
          · simp only [hpath, if_false]
            by_cases hvis : node ∈ st.visited
            · simp [hvis]
            · simp only [hvis, if_false]
              cases hlook : pyDictLookup g node with
              | none => rfl
              | some info =>
                  simp only
                  have hkey : node ∈ g.map Prod.fst := by
                    have := pyDictLookup_mem hlook
                    exact List.mem_map.mpr ⟨(node, info), this, rfl⟩
                  have hlt := unvisitedCount_insert_lt g st node hkey hvis
                  have haux : ∀ (deps : List String)
                      (s : DependencyMapper.DfsState),
                      unvisitedCount g s < f1 + 1 →
                      unvisitedCount g s < f2 + 1 →
                      unvisitedCount g s ≤
                        unvisitedCount g
                          { st with visited := st.visited ++ [node] } →
                      (deps.foldl (fun s dep =>
                        DependencyMapper.dfs g f1 dep (path ++ [node]) s) s) =
                      (deps.foldl (fun s dep =>
                        DependencyMapper.dfs g f2 dep (path ++ [node]) s)
                          s) := by
                    intro deps
                    induction deps with
                    | nil => intro s _ _ _; rfl
                    | cons d rest ihd =>
                        intro s hs1 hs2 hsle
                        rw [List.foldl_cons, List.foldl_cons]
                        have heq : DependencyMapper.dfs g f1 d
                            (path ++ [node]) s =
                            DependencyMapper.dfs g f2 d (path ++ [node]) s :=
                          ih f2 d (path ++ [node]) s (by omega) (by omega)
                        rw [heq]
                        have hmono' : unvisitedCount g
                            (DependencyMapper.dfs g f2 d (path ++ [node]) s) ≤
                            unvisitedCount g s :=
                          unvisitedCount_mono g
                            (dfs_visited_mono g f2 d (path ++ [node]) s)
                        exact ihd _ (by omega) (by omega) (by omega)
                  exact haux info.internalDeps _ (by omega) (by omega)
                    (le_refl _)

/-- The fuel `find_circular_dependencies` supplies (`g.length + 1`) is above
the measure, so the reported cycles do not depend on the particular
sufficient fuel: any larger fuel produces the same fold. -/
theorem find_circular_fuel_stable
    (g : List (String × DependencyMapper.GraphInfo)) (extra : Nat) :
    (g.foldl (fun st e =>
      if e.1 ∈ st.visited then st
      else DependencyMapper.dfs g (g.length + 1 + extra) e.1 [] st)
      { visited := [], circular := [] }).circular =
    DependencyMapper.find_circular_dependencies g := by
  unfold DependencyMapper.find_circular_dependencies
  congr 1
  have hbound : ∀ st : DependencyMapper.DfsState,
      unvisitedCount g st ≤ g.length := by
    intro st
    calc unvisitedCount g st ≤ (g.map Prod.fst).length :=
          List.countP_le_length _
      _ = g.length := List.length_map _ _
  have haux : ∀ (entries : List (String × DependencyMapper.GraphInfo))
      (st : DependencyMapper.DfsState),
      entries.foldl (fun st e =>
        if e.1 ∈ st.visited then st
        else DependencyMapper.dfs g (g.length + 1 + extra) e.1 [] st) st =
      entries.foldl (fun st e =>
        if e.1 ∈ st.visited then st
        else DependencyMapper.dfs g (g.length + 1) e.1 [] st) st := by
    intro entries
    induction entries with
    | nil => intro st; rfl
    | cons e rest ihe =>
        intro st
        rw [List.foldl_cons, List.foldl_cons]
        have hstep : (if e.1 ∈ st.visited then st
            else DependencyMapper.dfs g (g.length + 1 + extra) e.1 [] st) =
            (if e.1 ∈ st.visited then st
            else DependencyMapper.dfs g (g.length + 1) e.1 [] st) := by
          split
          · rfl
          · exact dfs_fuel_irrelevant g _ _ e.1 [] st
              (by have := hbound st; omega) (by have := hbound st; omega)
        rw [hstep, ihe]
  exact haux g _

/-- A one-module graph with no edges. -/
def exSingleGraph : List (String × DependencyMapper.GraphInfo) :=
  [("x", { dependencies := [], dependents := [], internalDeps := [],
           externalDeps := [], builtinDeps := [] })]

/-- Witness for C5's conditional conjuncts: the acyclic case at a one-module
edgeless graph, and the visited-root no-op at a concrete state. -/
theorem claim_C5_witness :
    DependencyMapper.find_circular_dependencies exSingleGraph = []
    ∧ DependencyMapper.dfs exSingleGraph 1 "x" []
        { visited := ["x"], circular := [] } =
      { visited := ["x"], circular := [] } := by
  constructor
  · refine claim_C5.2.1 _ (fun n htg => ?_)
    have hedge : ∀ a b : String, ¬ edgeRel exSingleGraph a b := by
      rintro a b ⟨info, hl, hmem⟩
      have hm := pyDictLookup_mem hl
      simp only [exSingleGraph, List.mem_singleton, Prod.mk.injEq] at hm
      rcases hm with ⟨rfl, rfl⟩
      simp at hmem
    cases htg with
    | single h => exact hedge _ _ h
    | tail _ h => exact hedge _ _ h
  · exact claim_C5.2.2 exSingleGraph 0 "x" ["x"] [] (by decide)

/-! ## C8 — cognitive complexity -/

-- Raising the incoming nesting level by one raises every enumerated level by
-- one: the level of a node in `walkLevels` is the incoming level plus the
-- number of its `f`-ancestors.
mutual

theorem walkLevels_shift (fc : Py → Bool) : (t : Py) → (l : Nat) →
    Py.walkLevels fc t (l + 1) =
      (Py.walkLevels fc t l).map (fun p => (p.1, p.2 + 1))
  | t@(.module b1), l => by
      by_cases hf : fc (Py.module b1) <;>
        simp [Py.walkLevels, hf, walkLevelsList_shift fc b1]
  | t@(.functionDef n1 a1 b1 d1 r1 l1 e1), l => by
      by_cases hf : fc (Py.functionDef n1 a1 b1 d1 r1 l1 e1) <;>
        simp [Py.walkLevels, hf, walkLevelsList_shift fc b1, walkLevelsList_shift fc d1, walkLevelsOpt_shift fc r1]
  | t@(.asyncFunctionDef n1 a1 b1 d1 r1 l1 e1), l => by
      by_cases hf : fc (Py.asyncFunctionDef n1 a1 b1 d1 r1 l1 e1) <;>
        simp [Py.walkLevels, hf, walkLevelsList_shift fc b1, walkLevelsList_shift fc d1, walkLevelsOpt_shift fc r1]
  | t@(.classDef n1 bs1 b1 d1 l1 e1), l => by
      by_cases hf : fc (Py.classDef n1 bs1 b1 d1 l1 e1) <;>
        simp [Py.walkLevels, hf, walkLevelsList_shift fc bs1, walkLevelsList_shift fc b1, walkLevelsList_shift fc d1]
  | t@(.assign t1 v1 l1), l => by
      by_cases hf : fc (Py.assign t1 v1 l1) <;>
        simp [Py.walkLevels, hf, walkLevelsList_shift fc t1, walkLevels_shift fc v1]
  | t@(.ret v1), l => by
      by_cases hf : fc (Py.ret v1) <;>
        simp [Py.walkLevels, hf, walkLevelsOpt_shift fc v1]
  | t@(.exprStmt v1), l => by
      by_cases hf : fc (Py.exprStmt v1) <;>
        simp [Py.walkLevels, hf, walkLevels_shift fc v1]
  | t@(.passStmt), l => by simp [Py.walkLevels]
  | t@(.ifStmt t1 b1 o1), l => by
      by_cases hf : fc (Py.ifStmt t1 b1 o1) <;>
        simp [Py.walkLevels, hf, walkLevels_shift fc t1, walkLevelsList_shift fc b1, walkLevelsList_shift fc o1]
  | t@(.whileStmt t1 b1 o1), l => by
      by_cases hf : fc (Py.whileStmt t1 b1 o1) <;>
        simp [Py.walkLevels, hf, walkLevels_shift fc t1, walkLevelsList_shift fc b1, walkLevelsList_shift fc o1]
  | t@(.forStmt t1 i1 b1 o1), l => by
      by_cases hf : fc (Py.forStmt t1 i1 b1 o1) <;>
        simp [Py.walkLevels, hf, walkLevels_shift fc t1, walkLevels_shift fc i1, walkLevelsList_shift fc b1, walkLevelsList_shift fc o1]
  | t@(.asyncForStmt t1 i1 b1 o1), l => by
      by_cases hf : fc (Py.asyncForStmt t1 i1 b1 o1) <;>
        simp [Py.walkLevels, hf, walkLevels_shift fc t1, walkLevels_shift fc i1, walkLevelsList_shift fc b1, walkLevelsList_shift fc o1]
  | t@(.withStmt i1 b1), l => by
      by_cases hf : fc (Py.withStmt i1 b1) <;>
        simp [Py.walkLevels, hf, walkLevelsList_shift fc i1, walkLevelsList_shift fc b1]
  | t@(.asyncWithStmt i1 b1), l => by
      by_cases hf : fc (Py.asyncWithStmt i1 b1) <;>
        simp [Py.walkLevels, hf, walkLevelsList_shift fc i1, walkLevelsList_shift fc b1]
  | t@(.tryStmt b1 h1 o1 f1), l => by
      by_cases hf : fc (Py.tryStmt b1 h1 o1 f1) <;>
        simp [Py.walkLevels, hf, walkLevelsList_shift fc b1, walkLevelsList_shift fc h1, walkLevelsList_shift fc o1, walkLevelsList_shift fc f1]
  | t@(.exceptHandler t1 b1), l => by
      by_cases hf : fc (Py.exceptHandler t1 b1) <;>
        simp [Py.walkLevels, hf, walkLevelsOpt_shift fc t1, walkLevelsList_shift fc b1]
  | t@(.importStmt n1 l1), l => by simp [Py.walkLevels]
  | t@(.importFrom m1 n1 l1), l => by simp [Py.walkLevels]
  | t@(.name i1), l => by simp [Py.walkLevels]
  | t@(.attribute v1 a1), l => by
      by_cases hf : fc (Py.attribute v1 a1) <;>
        simp [Py.walkLevels, hf, walkLevels_shift fc v1]
  | t@(.call f1 a1), l => by
      by_cases hf : fc (Py.call f1 a1) <;>
        simp [Py.walkLevels, hf, walkLevels_shift fc f1, walkLevelsList_shift fc a1]
  | t@(.boolOp v1), l => by
      by_cases hf : fc (Py.boolOp v1) <;>
        simp [Py.walkLevels, hf, walkLevelsList_shift fc v1]
  | t@(.binOp l1 r1), l => by
      by_cases hf : fc (Py.binOp l1 r1) <;>
        simp [Py.walkLevels, hf, walkLevels_shift fc l1, walkLevels_shift fc r1]
  | t@(.compare l1 c1), l => by
      by_cases hf : fc (Py.compare l1 c1) <;>
        simp [Py.walkLevels, hf, walkLevels_shift fc l1, walkLevelsList_shift fc c1]
  | t@(.strConst s1), l => by simp [Py.walkLevels]
  | t@(.numConst n1), l => by simp [Py.walkLevels]
  | t@(.noneConst), l => by simp [Py.walkLevels]
  | t@(.listExpr e1), l => by
      by_cases hf : fc (Py.listExpr e1) <;>
        simp [Py.walkLevels, hf, walkLevelsList_shift fc e1]
  | t@(.yieldExpr v1), l => by
      by_cases hf : fc (Py.yieldExpr v1) <;>
        simp [Py.walkLevels, hf, walkLevelsOpt_shift fc v1]

theorem walkLevelsList_shift (fc : Py → Bool) : (xs : List Py) → (l : Nat) →
    Py.walkLevelsList fc xs (l + 1) =
      (Py.walkLevelsList fc xs l).map (fun p => (p.1, p.2 + 1))
  | [], _ => rfl
  | x :: xs, l => by
      simp [Py.walkLevelsList, walkLevels_shift fc x, walkLevelsList_shift fc xs]

theorem walkLevelsOpt_shift (fc : Py → Bool) : (o : Option Py) → (l : Nat) →
    Py.walkLevelsOpt fc o (l + 1) =
      (Py.walkLevelsOpt fc o l).map (fun p => (p.1, p.2 + 1))
  | none, _ => rfl
  | some e, l => by simp [Py.walkLevelsOpt, walkLevels_shift fc e]

end

-- The nodes enumerated by `walkLevels` are exactly the walk.
mutual

theorem walkLevels_fst (fc : Py → Bool) : (t : Py) → (l : Nat) →
    (Py.walkLevels fc t l).map Prod.fst = Py.walk t
  | .module b1, l => by
      simp [Py.walkLevels, Py.walk, walkLevelsList_fst fc b1]
  | .functionDef n1 a1 b1 d1 r1 l1 e1, l => by
      simp [Py.walkLevels, Py.walk, walkLevelsList_fst fc b1, walkLevelsList_fst fc d1, walkLevelsOpt_fst fc r1]
  | .asyncFunctionDef n1 a1 b1 d1 r1 l1 e1, l => by
      simp [Py.walkLevels, Py.walk, walkLevelsList_fst fc b1, walkLevelsList_fst fc d1, walkLevelsOpt_fst fc r1]
  | .classDef n1 bs1 b1 d1 l1 e1, l => by
      simp [Py.walkLevels, Py.walk, walkLevelsList_fst fc bs1, walkLevelsList_fst fc b1, walkLevelsList_fst fc d1]
  | .assign t1 v1 l1, l => by
      simp [Py.walkLevels, Py.walk, walkLevelsList_fst fc t1, walkLevels_fst fc v1]
  | .ret v1, l => by
      simp [Py.walkLevels, Py.walk, walkLevelsOpt_fst fc v1]
  | .exprStmt v1, l => by
      simp [Py.walkLevels, Py.walk, walkLevels_fst fc v1]
  | .passStmt, l => by simp [Py.walkLevels, Py.walk]
  | .ifStmt t1 b1 o1, l => by
      simp [Py.walkLevels, Py.walk, walkLevels_fst fc t1, walkLevelsList_fst fc b1, walkLevelsList_fst fc o1]
  | .whileStmt t1 b1 o1, l => by
      simp [Py.walkLevels, Py.walk, walkLevels_fst fc t1, walkLevelsList_fst fc b1, walkLevelsList_fst fc o1]
  | .forStmt t1 i1 b1 o1, l => by
      simp [Py.walkLevels, Py.walk, walkLevels_fst fc t1, walkLevels_fst fc i1, walkLevelsList_fst fc b1, walkLevelsList_fst fc o1]
  | .asyncForStmt t1 i1 b1 o1, l => by
      simp [Py.walkLevels, Py.walk, walkLevels_fst fc t1, walkLevels_fst fc i1, walkLevelsList_fst fc b1, walkLevelsList_fst fc o1]
  | .withStmt i1 b1, l => by
      simp [Py.walkLevels, Py.walk, walkLevelsList_fst fc i1, walkLevelsList_fst fc b1]
  | .asyncWithStmt i1 b1, l => by
      simp [Py.walkLevels, Py.walk, walkLevelsList_fst fc i1, walkLevelsList_fst fc b1]
  | .tryStmt b1 h1 o1 f1, l => by
      simp [Py.walkLevels, Py.walk, walkLevelsList_fst fc b1, walkLevelsList_fst fc h1, walkLevelsList_fst fc o1, walkLevelsList_fst fc f1]
  | .exceptHandler t1 b1, l => by
      simp [Py.walkLevels, Py.walk, walkLevelsOpt_fst fc t1, walkLevelsList_fst fc b1]
  | .importStmt n1 l1, l => by simp [Py.walkLevels, Py.walk]
  | .importFrom m1 n1 l1, l => by simp [Py.walkLevels, Py.walk]
  | .name i1, l => by simp [Py.walkLevels, Py.walk]
  | .attribute v1 a1, l => by
      simp [Py.walkLevels, Py.walk, walkLevels_fst fc v1]
  | .call f1 a1, l => by
      simp [Py.walkLevels, Py.walk, walkLevels_fst fc f1, walkLevelsList_fst fc a1]
  | .boolOp v1, l => by
      simp [Py.walkLevels, Py.walk, walkLevelsList_fst fc v1]
  | .binOp l1 r1, l => by
      simp [Py.walkLevels, Py.walk, walkLevels_fst fc l1, walkLevels_fst fc r1]
  | .compare l1 c1, l => by
      simp [Py.walkLevels, Py.walk, walkLevels_fst fc l1, walkLevelsList_fst fc c1]
  | .strConst s1, l => by simp [Py.walkLevels, Py.walk]
  | .numConst n1, l => by simp [Py.walkLevels, Py.walk]
  | .noneConst, l => by simp [Py.walkLevels, Py.walk]
  | .listExpr e1, l => by
      simp [Py.walkLevels, Py.walk, walkLevelsList_fst fc e1]
  | .yieldExpr v1, l => by
      simp [Py.walkLevels, Py.walk, walkLevelsOpt_fst fc v1]

theorem walkLevelsList_fst (fc : Py → Bool) : (xs : List Py) → (l : Nat) →
    (Py.walkLevelsList fc xs l).map Prod.fst = Py.walkList xs
  | [], _ => rfl
  | x :: xs, l => by
      simp [Py.walkLevelsList, Py.walkList, walkLevels_fst fc x,
        walkLevelsList_fst fc xs]

theorem walkLevelsOpt_fst (fc : Py → Bool) : (o : Option Py) → (l : Nat) →
    (Py.walkLevelsOpt fc o l).map Prod.fst = Py.walkOpt o
  | none, _ => rfl
  | some e, l => by simp [Py.walkLevelsOpt, Py.walkOpt, walkLevels_fst fc e]

end

/-- The node kinds that `_calculate_cognitive_complexity` scores:
if/while/for statements and except clauses. -/
def isCognitiveScoring : Py → Bool
  | .ifStmt .. | .whileStmt .. | .forStmt .. | .exceptHandler .. => true
  | _ => false

/-- One extra nesting level adds exactly one to a scoring node's score. -/
theorem cognitiveScore_succ (n : Py) (l : Nat) :
    CodeAnalyzer.cognitiveScore n (l + 1) =
      CodeAnalyzer.cognitiveScore n l +
        (if isCognitiveScoring n then 1 else 0) := by
  cases n <;> simp [CodeAnalyzer.cognitiveScore, isCognitiveScoring] <;> omega

/-- Sums split over pointwise sums. -/
theorem sum_map_add {α : Type} (f g : α → Nat) (l : List α) :
    (l.map fun a => f a + g a).sum = (l.map f).sum + (l.map g).sum := by
  induction l with
  | nil => rfl
  | cons x xs ih => simp [ih]; omega

/-- Summing an indicator counts the filtered elements. -/
theorem sum_map_ite_count {α : Type} (p : α → Bool) (l : List α) :
    (l.map fun a => if p a then 1 else 0).sum = (l.filter p).length := by
  induction l with
  | nil => rfl
  | cons x xs ih =>
      by_cases hx : p x <;> simp [List.filter_cons, hx, ih] <;> omega

/-- C8: cognitive complexity weights each if/while/for/except by one plus
its nesting level — raising the ambient nesting level by one (i.e. wrapping
in one more if/while/for/with/except construct, the kinds `cognitiveNest`
selects) increases the total by exactly the number of scored constructs —
and the nested-ifs file scores 1 for the outer if at depth 0 plus 2 for the
inner if at depth 1, total 3. -/
theorem claim_C8 :
    (∀ n l, CodeAnalyzer.cognitiveScore n (l + 1) =
      CodeAnalyzer.cognitiveScore n l +
        (if isCognitiveScoring n then 1 else 0))
    ∧ (∀ t l, ((Py.walkLevels CodeAnalyzer.cognitiveNest t (l + 1)).map
          fun p => CodeAnalyzer.cognitiveScore p.1 p.2).sum =
        ((Py.walkLevels CodeAnalyzer.cognitiveNest t l).map
          fun p => CodeAnalyzer.cognitiveScore p.1 p.2).sum +
        ((Py.walk t).filter isCognitiveScoring).length)
    ∧ CodeAnalyzer.calculate_cognitive_complexity exNestedIf = 3 := by
  refine ⟨cognitiveScore_succ, fun t l => ?_, by decide⟩
  rw [walkLevels_shift, List.map_map]
  have hcomp : ((fun p : Py × Nat => CodeAnalyzer.cognitiveScore p.1 p.2) ∘
      fun p : Py × Nat => (p.1, p.2 + 1)) =
      fun p : Py × Nat => CodeAnalyzer.cognitiveScore p.1 p.2 +
        (if isCognitiveScoring p.1 then 1 else 0) :=
    funext fun p => cognitiveScore_succ p.1 p.2
  rw [hcomp, sum_map_add]
  congr 1
  have hmap : (Py.walkLevels CodeAnalyzer.cognitiveNest t l).map
      (fun p : Py × Nat => if isCognitiveScoring p.1 then 1 else 0) =
      ((Py.walkLevels CodeAnalyzer.cognitiveNest t l).map Prod.fst).map
        (fun n => if isCognitiveScoring n then 1 else 0) := by
    rw [List.map_map]; rfl
  rw [hmap, walkLevels_fst, sum_map_ite_count]

/-! ## C10 — the per-file call graph -/

/-- Call targets are recorded deduplicated (`list(set(...))`). -/
theorem fe_calls_nodup (node : Py) :
    (FunctionExtractor.extract_function_calls node).Nodup := by
  unfold FunctionExtractor.extract_function_calls
  exact List.nodup_dedup _

/-- Any extracted function document starts with no callers, deduplicated
calls, and is keyed by its own name. -/
theorem efd_props (node : Py) (doc : FunctionExtractor.FunctionDocumentation)
    (h : FunctionExtractor.extract_function_documentation node = some doc) :
    doc.calledBy = [] ∧ doc.callsMade.Nodup := by
  cases node <;>
    simp [FunctionExtractor.extract_function_documentation] at h <;>
    rcases h with rfl <;>
    exact ⟨rfl, fe_calls_nodup _⟩

/-- The collected function dict has distinct keys, and every entry has an
empty `calledBy` and deduplicated `callsMade`. -/
theorem fe_functions_props (tree : Py) :
    ((FunctionExtractor.fe_functions tree).map Prod.fst).Nodup
    ∧ ∀ e ∈ FunctionExtractor.fe_functions tree,
        e.2.calledBy = [] ∧ e.2.callsMade.Nodup := by
  unfold FunctionExtractor.fe_functions
  generalize Py.walk tree = nodes
  have haux : ∀ (nodes : List Py)
      (g : List (String × FunctionExtractor.FunctionDocumentation)),
      (g.map Prod.fst).Nodup →
      (∀ e ∈ g, e.2.calledBy = [] ∧ e.2.callsMade.Nodup) →
      (((nodes.foldl (fun fns node =>
          match FunctionExtractor.extract_function_documentation node with
          | some doc => pyDictInsert fns doc.name doc
          | none => fns) g).map Prod.fst).Nodup
        ∧ ∀ e ∈ nodes.foldl (fun fns node =>
            match FunctionExtractor.extract_function_documentation node with
            | some doc => pyDictInsert fns doc.name doc
            | none => fns) g,
          e.2.calledBy = [] ∧ e.2.callsMade.Nodup) := by
    intro nodes
    induction nodes with
    | nil => intro g h1 h2; exact ⟨h1, h2⟩
    | cons node rest ih =>
        intro g h1 h2
        rw [List.foldl_cons]
        cases hdoc : FunctionExtractor.extract_function_documentation node with
        | none => simpa [hdoc] using ih g h1 h2
        | some doc =>
            simp only [hdoc]
            exact ih _ (pyDictInsert_keys_nodup _ _ h1)
              (pyDictInsert_forall h2 (efd_props node doc hdoc))
  exact haux nodes [] (by simp) (by intro e he; cases he)

/-- Folding the caller-append collapses to one list append. -/
theorem foldl_addCaller (xs : List String) :
    ∀ d : FunctionExtractor.FunctionDocumentation,
    xs.foldl (fun doc caller =>
      { doc with calledBy := doc.calledBy ++ [caller] }) d =
      { d with calledBy := d.calledBy ++ xs } := by
  induction xs with
  | nil => intro d; simp
  | cons x rest ih =>
      intro d
      rw [List.foldl_cons, ih]
      simp

/-- A deduplicated list keeps at most one copy of any value. -/
theorem nodup_filter_eq_length_le_one {l : List String} (h : l.Nodup)
    (a : String) : (l.filter (fun x => x = a)).length ≤ 1 := by
  induction l with
  | nil => simp
  | cons x xs ih =>
      rcases List.nodup_cons.mp h with ⟨hx, hxs⟩
      by_cases hxa : x = a
      · subst hxa
        have hnil : xs.filter (fun y => y = x) = [] :=
          List.filter_eq_nil_iff.mpr fun y hy hyx => hx (by
            simpa [of_decide_eq_true hyx] using hy)
        simp [List.filter_cons, hnil]
      · simpa [List.filter_cons, hxa] using ih hxs

/-- Lists of length at most one have no duplicates. -/
theorem nodup_of_length_le_one {α : Type} {l : List α}
    (h : l.length ≤ 1) : l.Nodup := by
  cases l with
  | nil => exact List.nodup_nil
  | cons x xs =>
      cases xs with
      | nil => exact List.nodup_singleton x
      | cons y ys => simp at h

/-- The caller lists produced by the reverse pass are duplicate-free when
keys are distinct and each out-edge list is deduplicated. -/
theorem flat_callers_nodup :
    ∀ (S : List (String × List String)), (S.map Prod.fst).Nodup →
    (∀ nd ∈ S, nd.2.Nodup) → ∀ (N : String),
    (S.flatMap (fun nd =>
      (nd.2.filter (fun dd => dd = N)).map fun _ => nd.1)).Nodup := by
  intro S
  induction S with
  | nil => intro _ _ N; simp
  | cons nd rest ih =>
      intro hkeys hcalls N
      have hkeys' : (nd.1 :: rest.map Prod.fst).Nodup := by simpa using hkeys
      rcases List.nodup_cons.mp hkeys' with ⟨hnd, hrest⟩
      rw [List.flatMap_cons]
      rw [List.nodup_append]
      refine ⟨?_, ih hrest (fun b hb => hcalls b (List.mem_cons_of_mem _ hb)) N,
        ?_⟩
      · refine nodup_of_length_le_one ?_
        rw [List.length_map]
        exact nodup_filter_eq_length_le_one
          (hcalls nd (List.mem_cons_self _ _)) N
      · intro x hx hx'
        rcases List.mem_map.mp hx with ⟨_, _, rfl⟩
        rcases List.mem_flatMap.mp hx' with ⟨b, hb, hxb⟩
        rcases List.mem_map.mp hxb with ⟨_, _, hb1⟩
        exact hnd (List.mem_map.mpr ⟨b, hb, hb1⟩)

/-- `extract_from_file` in closed form: every collected entry, with its
`calledBy` filled by the callers pass. -/
theorem extract_from_file_eq (tree : Py) :
    FunctionExtractor.extract_from_file tree =
      (FunctionExtractor.fe_functions tree).map (fun e => (e.1,
        { e.2 with calledBy := e.2.calledBy ++
          (((FunctionExtractor.fe_functions tree).map fun b =>
              (b.1, b.2.callsMade)).flatMap fun nd =>
            (nd.2.filter (fun dd => dd = e.1)).map fun _ => nd.1) })) := by
  unfold FunctionExtractor.extract_from_file FunctionExtractor.build_call_graph
  rw [transposePass_eq]
  exact List.map_congr_left fun e _ => by rw [foldl_addCaller]

/-- C10: in every map returned by `extract_from_file`, f's name appears in
g's called_by exactly when g's name appears in f's calls_made; every name in
any called_by list is a key of the same map; and no caller is listed twice
in one called_by list. -/
theorem claim_C10 (tree : Py) :
    (∀ p ∈ FunctionExtractor.extract_from_file tree,
      ∀ q ∈ FunctionExtractor.extract_from_file tree,
        (p.1 ∈ q.2.calledBy ↔ q.1 ∈ p.2.callsMade))
    ∧ ∀ q ∈ FunctionExtractor.extract_from_file tree,
        (∀ nm ∈ q.2.calledBy,
          ∃ r ∈ FunctionExtractor.extract_from_file tree, r.1 = nm)
        ∧ q.2.calledBy.Nodup := by
  obtain ⟨hnodup, hP⟩ := fe_functions_props tree
  have hEq := extract_from_file_eq tree
  constructor
  · intro p hp q hq
    rw [hEq] at hp hq
    rcases List.mem_map.mp hp with ⟨bp, hbp, rfl⟩
    rcases List.mem_map.mp hq with ⟨bq, hbq, rfl⟩
    simp only
    rw [(hP bq hbq).1, List.nil_append]
    constructor
    · intro hmem
      simp only [List.mem_flatMap, List.mem_map, List.mem_filter] at hmem
      rcases hmem with ⟨nd, hndS, ⟨dd, ⟨hddmem, hddq⟩, hndp⟩⟩
      rcases hndS with ⟨b, hb, rfl⟩
      have hbeq : b = bp := mem_eq_of_nodup_keys hnodup hb hbp hndp
      subst hbeq
      have hdd : dd = bq.1 := by simpa using hddq
      subst hdd
      exact hddmem
    · intro hmem
      simp only [List.mem_flatMap, List.mem_map, List.mem_filter]
      exact ⟨(bp.1, bp.2.callsMade), ⟨bp, hbp, rfl⟩,
        ⟨bq.1, ⟨hmem, by simp⟩, rfl⟩⟩
  · intro q hq
    rw [hEq] at hq
    rcases List.mem_map.mp hq with ⟨bq, hbq, rfl⟩
    simp only
    rw [(hP bq hbq).1, List.nil_append]
    constructor
    · intro nm hnm
      simp only [List.mem_flatMap, List.mem_map, List.mem_filter] at hnm
      rcases hnm with ⟨nd, hndS, ⟨dd, _, hndnm⟩⟩
      rcases hndS with ⟨b, hb, rfl⟩
      refine ⟨(b.1, { b.2 with calledBy := b.2.calledBy ++
        (((FunctionExtractor.fe_functions tree).map fun c =>
            (c.1, c.2.callsMade)).flatMap fun nd =>
          (nd.2.filter (fun dd => dd = b.1)).map fun _ => nd.1) }), ?_, hndnm⟩
      rw [hEq]
      exact List.mem_map.mpr ⟨b, hb, rfl⟩
    · refine flat_callers_nodup _ ?_ ?_ bq.1
      · rw [List.map_map]
        exact hnodup
      · intro nd hnd
        rcases List.mem_map.mp hnd with ⟨b, hb, rfl⟩
        exact (hP b hb).2

/-- A file with two functions where `f` calls `g`. -/
def exCallTree : Py :=
  .module [.functionDef "f" { args := [] }
      [.exprStmt (.call (.name "g") [])] [] none 1 2,
    .functionDef "g" { args := [] } [.passStmt] [] none 3 4]

/-- The record extracted for `f` in `exCallTree`. -/
def exDocF : FunctionExtractor.FunctionDocumentation :=
  { name := "f"
    lineStart := 1
    lineEnd := 2
    isAsync := false
    complexity := 1
    callsMade := ["g"]
    calledBy := [] }

/-- The record extracted for `g` in `exCallTree`. -/
def exDocG : FunctionExtractor.FunctionDocumentation :=
  { name := "g"
    lineStart := 3
    lineEnd := 4
    isAsync := false
    complexity := 1
    callsMade := []
    calledBy := ["f"] }

/-- Witness for C10 at `exCallTree`: the caller/callee entries satisfy the
equivalence. -/
theorem claim_C10_witness :
    ((("f", exDocF).1 ∈ ("g", exDocG).2.calledBy) ↔
      (("g", exDocG).1 ∈ ("f", exDocF).2.callsMade))
    ∧ (∃ r ∈ FunctionExtractor.extract_from_file exCallTree, r.1 = "f")
    ∧ ("g", exDocG).2.calledBy.Nodup :=
  ⟨(claim_C10 exCallTree).1 _ (by decide) _ (by decide),
   ((claim_C10 exCallTree).2 ("g", exDocG) (by decide)).1 "f" (by decide),
   ((claim_C10 exCallTree).2 ("g", exDocG) (by decide)).2⟩
